import Mathlib

/-!
# Verification of the framer message-framing codec

Shallow embedding of the framer library (stream-mode length-prefixed framing
over non-blocking byte transports) together with proofs about its read/write
state machines, bulk-copy fast paths and the message forwarder.

Bytes are modelled as `Nat` (every byte produced by the codec is reduced
mod 256 at its production site, mirroring Go's `byte` casts).  Go `error`
values are modelled as `Option IOErr` (`none` = `nil`).  The retry policy is
fixed to the non-blocking default (`RetryDelay < 0`), under which the Go
`readOnce`/`writeOnce` helpers perform exactly one transport call plus the
no-progress guard.  Loops of the Go state machines are embedded as
fuel-indexed recursion returning `Option`; `none` means the fuel bound was
reached (theorems always exhibit a `some` result, i.e. actual program
behaviour).
-/

/-- Go error values that the framer produces or propagates (`nil` is `Option.none`). -/
inductive IOErr where
  | eof
  | unexpectedEOF
  | shortBuffer
  | shortWrite
  | noProgress
  | wouldBlock
  | more
  | tooLong
  | invalidArgument
deriving DecidableEq, Repr

/-- Byte order of the extended length field (`binary.BigEndian` / `binary.LittleEndian`). -/
inductive ByteOrd where
  | big
  | little
deriving DecidableEq, Repr

/-- Protocol describes the boundary behaviour of the transport. -/
inductive Protocol where
  | binaryStream
  | seqPacket
  | datagram
deriving DecidableEq, Repr

/-- `preserveBoundary` is true for the packet-preserving protocols. -/
def Protocol.preserveBoundary : Protocol → Bool
  | .binaryStream => false
  | _ => true

/-- Little-endian byte decomposition: `toBytesLE k v` is the `k` low bytes of `v`,
least significant first (the layout `binary.LittleEndian.PutUintNN` stores). -/
def toBytesLE : Nat → Nat → List Nat
  | 0, _ => []
  | k + 1, v => (v % 256) :: toBytesLE k (v / 256)

/-- Value of a little-endian byte list (least significant byte first). -/
def leVal : List Nat → Nat
  | [] => 0
  | b :: rest => b + 256 * leVal rest

/-- `binary.ByteOrder.Uint16` over a 2-byte slice. -/
def bUint16 (bo : ByteOrd) (bs : List Nat) : Nat :=
  match bo with
  | .big => leVal bs.reverse
  | .little => leVal bs

/-- `binary.ByteOrder.PutUint16`. -/
def bPutUint16 (bo : ByteOrd) (v : Nat) : List Nat :=
  match bo with
  | .big => (toBytesLE 2 v).reverse
  | .little => toBytesLE 2 v

/-- `binary.ByteOrder.Uint64` over an 8-byte slice. -/
def bUint64 (bo : ByteOrd) (bs : List Nat) : Nat :=
  match bo with
  | .big => leVal bs.reverse
  | .little => leVal bs

/-- `binary.ByteOrder.PutUint64`. -/
def bPutUint64 (bo : ByteOrd) (v : Nat) : List Nat :=
  match bo with
  | .big => (toBytesLE 8 v).reverse
  | .little => toBytesLE 8 v

/-- Copy `data` into list `l` starting at index `i` (Go's copy-into-slice
`l[i:i+len(data)] = data`; every use site guarantees the write fits). -/
def writeAt (l : List Nat) (i : Nat) (data : List Nat) : List Nat :=
  l.take i ++ data ++ l.drop (i + data.length)

/-- The codec state (`framer` struct).  `header` always has 8 entries;
`length`/`offset` are per-message state; `rbuf`/`wbuf` are the lazily
allocated fast-path scratch buffers and `wtOff`/`wtLen` the declared
`WriteTo` partial-write resume cursor.  (`rd`/`wr` live outside the state:
reads are scripted, writers are explicit parameters; `retryDelay` is fixed
to the non-blocking default.) -/
structure Framer where
  rbo : ByteOrd := .big
  wbo : ByteOrd := .big
  rpr : Protocol := .binaryStream
  wpr : Protocol := .binaryStream
  readLimit : Nat := 0
  header : List Nat := List.replicate 8 0
  length : Nat := 0
  offset : Nat := 0
  rbuf : Option (List Nat) := none
  wtOff : Nat := 0
  wtLen : Nat := 0
  wbuf : Option (List Nat) := none
deriving Repr

/-- A fresh framer with the given byte order (both directions) and read limit,
as produced by `newFramer` with stream protocol on both sides. -/
def mkFramer (bo : ByteOrd) (limit : Nat) : Framer :=
  { rbo := bo, wbo := bo, readLimit := limit }

/-- A scripted transport source, modelled from the repo's test harnesses
(`scriptedReader`, `dataErrReader`): a list of steps, each a chunk of bytes
paired with an error delivered once the chunk is exhausted.  An exhausted
script reports `eof`. -/
def Script : Type := List (List Nat × Option IOErr)

/-- One `Read` call on a scripted source with a destination of capacity `cap`:
returns the bytes served, the error, and the remaining script. -/
def scriptRead : Script → Nat → List Nat × Option IOErr × Script
  | [], _ => ([], some .eof, [])
  | (b, e) :: rest, cap =>
    if b = [] then ([], e, rest)
    else if cap < b.length then (b.take cap, none, (b.drop cap, e) :: rest)
    else (b, e, rest)

/-- `framer.readOnce` under the non-blocking retry policy: one transport read
plus the guard turning a contract-violating `(0, nil)` on a non-empty buffer
into `io.ErrNoProgress`. -/
def readOnce (s : Script) (cap : Nat) : List Nat × Option IOErr × Script :=
  match scriptRead s cap with
  | (bs, e, s') =>
    if cap ≠ 0 ∧ bs = [] ∧ e = none then ([], some .noProgress, s')
    else (bs, e, s')

/-- An abstract byte sink (`io.Writer`): `write st p` returns the number of
bytes accepted (a prefix of `p`), the error, and the new sink state. -/
structure WriterM (σ : Type) where
  write : σ → List Nat → Nat × Option IOErr × σ

/-- `framer.writeOnce` under the non-blocking retry policy: one transport
write plus the guard turning `(0, nil)` on a non-empty buffer into
`io.ErrShortWrite`. -/
def writeOnce (W : WriterM σ) (w : σ) (p : List Nat) : Nat × Option IOErr × σ :=
  match W.write w p with
  | (n, e, w') =>
    if p.length ≠ 0 ∧ n = 0 ∧ e = none then (0, some .shortWrite, w')
    else (n, e, w')

/-- Sink that accepts everything and records it (a `bytes.Buffer`). -/
def bufW : WriterM (List Nat) :=
  ⟨fun s p => (p.length, none, s ++ p)⟩

/-- Step 1 of `framer.readStream`: the loop reading the lead header byte into
`header[0]`, with the EOF taxonomy at the message boundary.  Result error
`some e` means the Go code executed `return 0, e`; `none` means control fell
through to step 2. -/
def rsHdr : Nat → Framer → Script → Option (Framer × Script × Option IOErr)
  | 0, _, _ => none
  | fuel + 1, fr, s =>
    if fr.offset < 1 then
      match readOnce s (1 - fr.offset) with
      | (bs, re, s') =>
        let fr' : Framer :=
          { fr with header := writeAt fr.header fr.offset bs, offset := fr.offset + bs.length }
        match re with
        | none => rsHdr fuel fr' s'
        | some .eof =>
          if fr'.offset = 0 then some (fr', s', some .eof)
          else if fr'.offset < 1 then some (fr', s', some .unexpectedEOF)
          else some (fr', s', none)
        | some e => some (fr', s', some e)
    else some (fr, s, none)

/-- Step 3 of `framer.readStream`: the loop reading the `exLen` extended
length bytes into `header[1..]`; EOF inside is truncation. -/
def rsExt : Nat → Framer → Script → Nat → Option (Framer × Script × Option IOErr)
  | 0, _, _, _ => none
  | fuel + 1, fr, s, exLen =>
    if fr.offset < 1 + exLen then
      match readOnce s (1 + exLen - fr.offset) with
      | (bs, re, s') =>
        let fr' : Framer :=
          { fr with header := writeAt fr.header fr.offset bs, offset := fr.offset + bs.length }
        match re with
        | none => rsExt fuel fr' s' exLen
        | some .eof =>
          if fr'.offset < 1 + exLen then some (fr', s', some .unexpectedEOF)
          else some (fr', s', none)
        | some e => some (fr', s', some e)
    else some (fr, s, none)

/-- Step 5 of `framer.readStream`: the payload loop reading into
`p[offset - hdrSize : length]` and accumulating the caller-visible count `n`.
Result `(n, some e, ...)` is the Go `return n, e`; `(n, none, ...)` means the
message completed (loop exit or absorbed terminal EOF). -/
def rsPay : Nat → Framer → Script → List Nat → Nat → Nat →
    Option (Nat × Option IOErr × Framer × Script × List Nat)
  | 0, _, _, _, _, _ => none
  | fuel + 1, fr, s, p, hdrSize, n =>
    if fr.offset < hdrSize + fr.length then
      let payloadOff := fr.offset - hdrSize
      match readOnce s (fr.length - payloadOff) with
      | (bs, re, s') =>
        let p' := writeAt p payloadOff bs
        let fr' : Framer := { fr with offset := fr.offset + bs.length }
        let n' := n + bs.length
        match re with
        | none => rsPay fuel fr' s' p' hdrSize n'
        | some .eof =>
          if fr'.offset < hdrSize + fr'.length then some (n', some .unexpectedEOF, fr', s', p')
          else some (n', none, fr', s', p')
        | some e => some (n', some e, fr', s', p')
    else some (n, none, fr, s, p)

/-- Step 2 of `framer.readStream`: extended-length size derived from the lead
byte (`0xFE → 2`, `0xFF → 7`, otherwise `0`). -/
def extLenOf (h0 : Nat) : Nat :=
  if h0 = 254 then 2 else if h0 = 255 then 7 else 0

/-- Step 4 of `framer.readStream`: parse the payload length from the header
scratch (`Uint16` of `header[1:3]`, or `Uint64` of `header[:]` masked/shifted
per byte order, or the lead byte itself).  All values stored here fit in an
`int64`, so the Go `int64` casts are lossless and the source's `length < 0`
guard is vacuous. -/
def parseLen (rbo : ByteOrd) (exLen : Nat) (hdr : List Nat) : Nat :=
  if exLen = 2 then bUint16 rbo ((hdr.drop 1).take 2)
  else if exLen = 7 then
    let u := bUint64 rbo (hdr.take 8)
    if rbo = ByteOrd.little then u >>> 8 else u &&& (2 ^ 56 - 1)
  else hdr.getD 0 0

/-- `framer.readStream`: one stream-mode `read_one` against a scripted source
with destination `p`.  Returns `(n, err, framer, script, p)`. -/
def readStream (fuel : Nat) (fr : Framer) (s : Script) (p : List Nat) :
    Option (Nat × Option IOErr × Framer × Script × List Nat) :=
  match rsHdr fuel fr s with
  | none => none
  | some (fr1, s1, some e) => some (0, some e, fr1, s1, p)
  | some (fr1, s1, none) =>
    let exLen := if 1 ≤ fr1.offset then extLenOf (fr1.header.getD 0 0) else 0
    match rsExt fuel fr1 s1 exLen with
    | none => none
    | some (fr2, s2, some e) => some (0, some e, fr2, s2, p)
    | some (fr2, s2, none) =>
      let fr3 : Framer :=
        if fr2.offset = 1 + exLen then
          { fr2 with length := parseLen fr2.rbo exLen fr2.header }
        else fr2
      if 2 ^ 56 - 1 < fr3.length then some (0, some .tooLong, fr3, s2, p)
      else if 0 < fr3.readLimit ∧ fr3.readLimit < fr3.length then
        some (0, some .tooLong, fr3, s2, p)
      else if p.length < fr3.length then some (0, some .shortBuffer, fr3, s2, p)
      else
        match rsPay fuel fr3 s2 p (1 + exLen) 0 with
        | none => none
        | some (n, some e, fr4, s4, p4) => some (n, some e, fr4, s4, p4)
        | some (n, none, fr4, s4, p4) =>
          some (n, none, { fr4 with offset := 0, length := 0 }, s4, p4)

/-- `framer.readPacket`: one packet-mode read (pass-through plus the
read-limit check on the returned count). -/
def readPacket (fr : Framer) (s : Script) (p : List Nat) :
    Nat × Option IOErr × Framer × Script × List Nat :=
  match readOnce s p.length with
  | (bs, e, s') =>
    let p' := writeAt p 0 bs
    if 0 < fr.readLimit ∧ fr.readLimit < bs.length then (bs.length, some .tooLong, fr, s', p')
    else (bs.length, e, fr, s', p')

/-- `framer.read`: protocol dispatch of the read side (the reader is always
present in this model, so the `nil`-reader `ErrInvalidArgument` branch is
omitted). -/
def fread (fuel : Nat) (fr : Framer) (s : Script) (p : List Nat) :
    Option (Nat × Option IOErr × Framer × Script × List Nat) :=
  if fr.rpr.preserveBoundary then some (readPacket fr s p)
  else readStream fuel fr s p

/-- The extended-length size chosen by `framer.writeStream` for payload
length `L` (the same three size classes the reader derives from the lead
byte). -/
def exLenOfLen (L : Nat) : Nat :=
  if L ≤ 253 then 0 else if L ≤ 65535 then 2 else 7

/-- Total header size (lead byte plus extended length bytes) for payload
length `L`. -/
def hdrSizeOfLen (L : Nat) : Nat := 1 + exLenOfLen L

/-- The header-construction block of `framer.writeStream` (executed once per
message when `offset == 0`), rewriting the 8-byte header scratch `hdr`. -/
def buildHeader (wbo : ByteOrd) (L : Nat) (hdr : List Nat) : List Nat :=
  if L ≤ 253 then writeAt hdr 0 [L]
  else if L ≤ 65535 then writeAt (writeAt hdr 0 [254]) 1 (bPutUint16 wbo (L % 2 ^ 16))
  else
    let h := if wbo = ByteOrd.little then bPutUint64 wbo (L <<< 8)
             else bPutUint64 wbo (L &&& (2 ^ 56 - 1))
    writeAt h 0 [255]

/-- Header-write loop of `framer.writeStream` (writes `header[offset:hdrSize]`;
an error here is returned as `(0, err)`). -/
def wsHdr (W : WriterM σ) : Nat → Framer → σ → Nat → Option (Framer × σ × Option IOErr)
  | 0, _, _, _ => none
  | fuel + 1, fr, w, hdrSize =>
    if fr.offset < hdrSize then
      match writeOnce W w ((fr.header.drop fr.offset).take (hdrSize - fr.offset)) with
      | (wn, we, w') =>
        let fr' : Framer := { fr with offset := fr.offset + wn }
        match we with
        | none => wsHdr W fuel fr' w' hdrSize
        | some e => some (fr', w', some e)
    else some (fr, w, none)

/-- Payload-write loop of `framer.writeStream` (writes `p[offset-hdrSize:]`,
accumulating the caller-visible payload count `n`). -/
def wsPay (W : WriterM σ) : Nat → Framer → σ → List Nat → Nat → Nat →
    Option (Framer × σ × Nat × Option IOErr)
  | 0, _, _, _, _, _ => none
  | fuel + 1, fr, w, p, hdrSize, n =>
    if fr.offset < hdrSize + fr.length then
      match writeOnce W w (p.drop (fr.offset - hdrSize)) with
      | (wn, we, w') =>
        let fr' : Framer := { fr with offset := fr.offset + wn }
        let n' := n + wn
        match we with
        | none => wsPay W fuel fr' w' p hdrSize n'
        | some e => some (fr', w', n', some e)
    else some (fr, w, n, none)

/-- `framer.writeStream`: one stream-mode `write_one` of payload `p` into the
sink.  Returns `(n, err, framer, sink)` with `n` the payload bytes written in
this call. -/
def writeStream (W : WriterM σ) (fuel : Nat) (fr : Framer) (w : σ) (p : List Nat) :
    Option (Nat × Option IOErr × Framer × σ) :=
  if 2 ^ 56 - 1 < p.length then some (0, some .tooLong, fr, w)
  else
    let fr0 : Framer := if fr.offset = 0 then { fr with length := p.length } else fr
    if fr0.length ≠ p.length then some (0, some .shortWrite, fr0, w)
    else
      let exLen := exLenOfLen fr0.length
      let fr1 : Framer :=
        if fr0.offset = 0 then { fr0 with header := buildHeader fr0.wbo fr0.length fr0.header }
        else fr0
      let hdrSize := 1 + exLen
      match wsHdr W fuel fr1 w hdrSize with
      | none => none
      | some (fr2, w2, some e) => some (0, some e, fr2, w2)
      | some (fr2, w2, none) =>
        match wsPay W fuel fr2 w2 p hdrSize 0 with
        | none => none
        | some (fr3, w3, n, some e) => some (n, some e, fr3, w3)
        | some (fr3, w3, n, none) => some (n, none, { fr3 with offset := 0, length := 0 }, w3)

/-- `framer.writePacket`: one packet-mode write (whole payload, with the
2^56-1 ceiling and the short-write completion check). -/
def writePacket (W : WriterM σ) (fr : Framer) (w : σ) (p : List Nat) :
    Nat × Option IOErr × Framer × σ :=
  if 2 ^ 56 - 1 < p.length then (0, some .tooLong, fr, w)
  else
    match writeOnce W w p with
    | (n, some e, w') => (n, some e, fr, w')
    | (n, none, w') =>
      if n ≠ p.length then (n, some .shortWrite, fr, w')
      else (n, none, fr, w')

/-- `framer.write`: protocol dispatch of the write side. -/
def fwrite (W : WriterM σ) (fuel : Nat) (fr : Framer) (w : σ) (p : List Nat) :
    Option (Nat × Option IOErr × Framer × σ) :=
  if fr.wpr.preserveBoundary then some (writePacket W fr w p)
  else writeStream W fuel fr w p

/-- The canonical header bytes emitted on the wire for payload length `L`
(the first `hdrSizeOfLen L` bytes of the built header scratch). -/
def encHeader (bo : ByteOrd) (L : Nat) : List Nat :=
  (buildHeader bo L (List.replicate 8 0)).take (hdrSizeOfLen L)

/-- The canonical single-message wire form of payload `p`. -/
def encWire (bo : ByteOrd) (p : List Nat) : List Nat :=
  encHeader bo p.length ++ p

/-- Script remainder after a step's bytes `b` have been partially consumed:
an exhausted step is popped. -/
def stepAfter (b : List Nat) (e : Option IOErr) (rest : Script) : Script :=
  if b = [] then rest else (b, e) :: rest

/-! ## Byte-order and list lemmas -/

theorem length_toBytesLE (k v : Nat) : (toBytesLE k v).length = k := by
  induction k generalizing v with
  | zero => rfl
  | succ k ih => simp [toBytesLE, ih]

theorem leVal_toBytesLE (k v : Nat) : leVal (toBytesLE k v) = v % 256 ^ k := by
  induction k generalizing v with
  | zero => simp [toBytesLE, leVal, Nat.mod_one]
  | succ k ih =>
    rw [toBytesLE, leVal, ih, pow_succ']
    rw [Nat.mod_mul]

theorem writeAt_nil (l : List Nat) (i : Nat) : writeAt l i [] = l := by
  simp [writeAt]

theorem writeAt_zero (l data : List Nat) :
    writeAt l 0 data = data ++ l.drop data.length := by
  simp [writeAt]

theorem writeAt_chain (l xs ys : List Nat) :
    writeAt (writeAt l 0 xs) xs.length ys = writeAt l 0 (xs ++ ys) := by
  unfold writeAt
  simp only [List.take_zero, List.nil_append, Nat.zero_add, List.length_append]
  rw [List.take_left, ← List.drop_drop, List.drop_left, List.drop_drop, List.append_assoc]

theorem length_writeAt (l data : List Nat) (i : Nat) (h : i + data.length ≤ l.length) :
    (writeAt l i data).length = l.length := by
  simp only [writeAt, List.length_append, List.length_take, List.length_drop]
  omega

theorem take_writeAt_zero (l data : List Nat) :
    (writeAt l 0 data).take data.length = data := by
  simp [writeAt_zero, List.take_append_of_le_length]

theorem toBytesLE_add (a b v : Nat) :
    toBytesLE (a + b) v = toBytesLE a v ++ toBytesLE b (v / 256 ^ a) := by
  induction a generalizing v with
  | zero => simp [toBytesLE]
  | succ a ih =>
    rw [Nat.succ_add, toBytesLE, toBytesLE, ih, List.cons_append]
    congr 2
    rw [Nat.div_div_eq_div_mul, pow_succ']

theorem leVal_append (xs ys : List Nat) :
    leVal (xs ++ ys) = leVal xs + 256 ^ xs.length * leVal ys := by
  induction xs with
  | nil => simp [leVal]
  | cons x xs ih =>
    simp only [List.cons_append, leVal, List.length_cons, List.append_eq]
    rw [ih]
    ring

/-! ## Wire-format lemmas: header encode / decode round trip -/

theorem bPutUint16_length (bo : ByteOrd) (v : Nat) : (bPutUint16 bo v).length = 2 := by
  cases bo <;> simp [bPutUint16, length_toBytesLE]

theorem bUint16_bPutUint16 (bo : ByteOrd) (v : Nat) (h : v < 2 ^ 16) :
    bUint16 bo (bPutUint16 bo v) = v := by
  have e : (256 : Nat) ^ 2 = 2 ^ 16 := by norm_num
  have h2 : v % 256 ^ 2 = v := Nat.mod_eq_of_lt (by rw [e]; exact h)
  cases bo <;>
    · simp only [bUint16, bPutUint16, List.reverse_reverse, leVal_toBytesLE]
      exact h2

theorem encHeader_class0 (bo : ByteOrd) (L : Nat) (h : L ≤ 253) :
    encHeader bo L = [L] := by
  simp [encHeader, buildHeader, hdrSizeOfLen, exLenOfLen, h, writeAt]

theorem encHeader_class2 (bo : ByteOrd) (L : Nat) (h1 : 253 < L) (h2 : L ≤ 65535) :
    encHeader bo L = 254 :: bPutUint16 bo L := by
  have hm : L % 2 ^ 16 = L := Nat.mod_eq_of_lt (by omega)
  have hno : ¬ L ≤ 253 := by omega
  simp only [encHeader, buildHeader, hdrSizeOfLen, exLenOfLen, hno, h2, if_false, if_true, hm]
  have hl := bPutUint16_length bo L
  rcases hb : bPutUint16 bo L with _ | ⟨b1, _ | ⟨b2, t⟩⟩ <;> simp [hb] at hl
  subst hl
  simp [writeAt, hb, List.take, List.replicate]

theorem toBytesLE8_of_lt (L : Nat) (h : L < 2 ^ 56) :
    toBytesLE 8 L = toBytesLE 7 L ++ [0] := by
  have h7 : (7 : Nat) + 1 = 8 := rfl
  rw [← h7, toBytesLE_add]
  have e56 : (256 : Nat) ^ 7 = 2 ^ 56 := by norm_num
  have hz : L / 256 ^ 7 = 0 := Nat.div_eq_of_lt (by rw [e56]; exact h)
  rw [hz]
  rfl

theorem encHeader_class7_big (L : Nat) (h1 : 65535 < L) (h2 : L ≤ 2 ^ 56 - 1) :
    encHeader .big L = 255 :: (toBytesLE 7 L).reverse := by
  have hno : ¬ L ≤ 253 := by omega
  have hno2 : ¬ L ≤ 65535 := by omega
  have hlt : L < 2 ^ 56 := by omega
  have hmask : L &&& (2 ^ 56 - 1) = L := by
    rw [Nat.and_pow_two_sub_one_eq_mod]
    exact Nat.mod_eq_of_lt hlt
  have hsz : hdrSizeOfLen L = 8 := by simp [hdrSizeOfLen, exLenOfLen, hno, hno2]
  have hbuild : buildHeader .big L (List.replicate 8 0) = 255 :: (toBytesLE 7 L).reverse := by
    simp only [buildHeader, if_neg hno, if_neg hno2]
    rw [if_neg (by decide : ¬ (ByteOrd.big = ByteOrd.little))]
    rw [hmask]
    simp only [bPutUint64]
    rw [toBytesLE8_of_lt L hlt]
    simp [writeAt, List.reverse_append]
  rw [encHeader, hbuild, hsz]
  rw [List.take_of_length_le (by simp [length_toBytesLE])]

theorem encHeader_class7_little (L : Nat) (h1 : 65535 < L) (h2 : L ≤ 2 ^ 56 - 1) :
    encHeader .little L = 255 :: toBytesLE 7 L := by
  have hno : ¬ L ≤ 253 := by omega
  have hno2 : ¬ L ≤ 65535 := by omega
  have hsz : hdrSizeOfLen L = 8 := by simp [hdrSizeOfLen, exLenOfLen, hno, hno2]
  have hbuild : buildHeader .little L (List.replicate 8 0) = 255 :: toBytesLE 7 L := by
    simp only [buildHeader, if_neg hno, if_neg hno2, if_true]
    simp only [bPutUint64]
    have hsh : L <<< 8 = L * 256 := by rw [Nat.shiftLeft_eq]
    rw [hsh, show (8 : Nat) = 1 + 7 from rfl, toBytesLE_add]
    have hz : L * 256 % 256 = 0 := Nat.mul_mod_left L 256
    have hd : L * 256 / 256 ^ 1 = L := by
      rw [pow_one]
      exact Nat.mul_div_cancel L (by norm_num)
    simp only [toBytesLE, hz, hd]
    simp [writeAt]
  rw [encHeader, hbuild, hsz]
  rw [List.take_of_length_le (by simp [length_toBytesLE])]

theorem encHeader_length (bo : ByteOrd) (L : Nat) (h : L ≤ 2 ^ 56 - 1) :
    (encHeader bo L).length = hdrSizeOfLen L := by
  by_cases h0 : L ≤ 253
  · simp [encHeader_class0 bo L h0, hdrSizeOfLen, exLenOfLen, h0]
  · by_cases h2 : L ≤ 65535
    · simp [encHeader_class2 bo L (by omega) h2, hdrSizeOfLen, exLenOfLen, h0, h2,
        bPutUint16_length]
    · cases bo
      · simp [encHeader_class7_big L (by omega) h, hdrSizeOfLen, exLenOfLen, h0, h2,
          length_toBytesLE]
      · simp [encHeader_class7_little L (by omega) h, hdrSizeOfLen, exLenOfLen, h0, h2,
          length_toBytesLE]

theorem encHeader_head (bo : ByteOrd) (L : Nat) (h : L ≤ 2 ^ 56 - 1) :
    (encHeader bo L).getD 0 0 = if L ≤ 253 then L else if L ≤ 65535 then 254 else 255 := by
  by_cases h0 : L ≤ 253
  · simp [encHeader_class0 bo L h0, h0]
  · by_cases h2 : L ≤ 65535
    · simp [encHeader_class2 bo L (by omega) h2, h0, h2]
    · cases bo
      · simp [encHeader_class7_big L (by omega) h, h0, h2]
      · simp [encHeader_class7_little L (by omega) h, h0, h2]

theorem parseLen_writeAt_encHeader (bo : ByteOrd) (L : Nat) (h8 : List Nat)
    (hlen : h8.length = 8) (h : L ≤ 2 ^ 56 - 1) :
    parseLen bo (exLenOfLen L) (writeAt h8 0 (encHeader bo L)) = L := by
  by_cases h0 : L ≤ 253
  · rw [encHeader_class0 bo L h0]
    simp [parseLen, exLenOfLen, h0, writeAt]
  · by_cases h2 : L ≤ 65535
    · rw [encHeader_class2 bo L (by omega) h2]
      have hex : exLenOfLen L = 2 := by simp [exLenOfLen, h0, h2]
      rw [hex]
      have hshape : writeAt h8 0 (254 :: bPutUint16 bo L) =
          254 :: (bPutUint16 bo L ++ h8.drop ((bPutUint16 bo L).length + 1)) := by
        simp [writeAt, Nat.add_comm]
      rw [hshape]
      simp only [parseLen, if_pos (rfl : (2 : Nat) = 2), List.drop_succ_cons, List.drop_zero]
      rw [← bPutUint16_length bo L, List.take_left]
      rw [bUint16_bPutUint16 bo L (by omega)]
      simp
    · have hlt : L < 2 ^ 56 := by omega
      have henc : (encHeader bo L).length = 8 := by
        rw [encHeader_length bo L h]
        simp [hdrSizeOfLen, exLenOfLen, h0, h2]
      have hshape : writeAt h8 0 (encHeader bo L) = encHeader bo L := by
        rw [writeAt_zero, henc, ← hlen, List.drop_length, List.append_nil]
      have hex : exLenOfLen L = 7 := by simp [exLenOfLen, h0, h2]
      rw [hshape, hex]
      have e56 : (256 : Nat) ^ 7 = 2 ^ 56 := by norm_num
      cases bo
      · rw [encHeader_class7_big L (by omega) h]
        have htk : List.take 8 (255 :: (toBytesLE 7 L).reverse) =
            255 :: (toBytesLE 7 L).reverse :=
          List.take_of_length_le (by simp [length_toBytesLE])
        simp only [parseLen, htk, if_neg (show (7 : Nat) ≠ 2 by decide),
          if_pos (rfl : (7 : Nat) = 7), if_true, if_false,
          if_neg (show ¬ (ByteOrd.big = ByteOrd.little) by decide)]
        simp only [bUint64, List.reverse_cons, List.reverse_reverse]
        rw [leVal_append, leVal_toBytesLE, length_toBytesLE]
        rw [e56, Nat.mod_eq_of_lt hlt]
        simp only [leVal]
        rw [Nat.and_pow_two_sub_one_eq_mod]
        omega
      · rw [encHeader_class7_little L (by omega) h]
        have htk : List.take 8 (255 :: toBytesLE 7 L) = 255 :: toBytesLE 7 L :=
          List.take_of_length_le (by simp [length_toBytesLE])
        simp only [parseLen, htk, if_neg (show (7 : Nat) ≠ 2 by decide),
          if_pos (rfl : (7 : Nat) = 7), if_true, if_false,
          if_pos (rfl : ByteOrd.little = ByteOrd.little)]
        simp only [bUint64]
        rw [show leVal (255 :: toBytesLE 7 L) = 255 + 256 * leVal (toBytesLE 7 L) from rfl]
        rw [leVal_toBytesLE, e56, Nat.mod_eq_of_lt hlt, Nat.shiftRight_eq_div_pow]
        omega

theorem extLenOf_encHeader (bo : ByteOrd) (L : Nat) (h : L ≤ 2 ^ 56 - 1) :
    extLenOf ((encHeader bo L).getD 0 0) = exLenOfLen L := by
  rw [encHeader_head bo L h]
  by_cases h0 : L ≤ 253
  · have n1 : L ≠ 254 := by omega
    have n2 : L ≠ 255 := by omega
    simp [extLenOf, exLenOfLen, h0, n1, n2]
  · by_cases h2 : L ≤ 65535 <;> simp [extLenOf, exLenOfLen, h0, h2]

/-! ## Scripted-transport lemmas -/

theorem scriptRead_nil (cap : Nat) : scriptRead [] cap = ([], some .eof, []) := rfl

theorem scriptRead_empty (e : Option IOErr) (rest : Script) (cap : Nat) :
    scriptRead (([], e) :: rest) cap = ([], e, rest) := by
  simp [scriptRead]

theorem scriptRead_all (b : List Nat) (e : Option IOErr) (rest : Script) (cap : Nat)
    (hb : b ≠ []) (hcap : b.length ≤ cap) :
    scriptRead ((b, e) :: rest) cap = (b, e, rest) := by
  simp only [scriptRead, if_neg hb, if_neg (by omega : ¬ cap < b.length)]

theorem scriptRead_take (b : List Nat) (e : Option IOErr) (rest : Script) (cap : Nat)
    (hcap : cap < b.length) :
    scriptRead ((b, e) :: rest) cap = (b.take cap, none, (b.drop cap, e) :: rest) := by
  have hb : b ≠ [] := by
    intro h
    simp [h] at hcap
  simp only [scriptRead, if_neg hb, if_pos hcap]

theorem readOnce_of_ne_nil (s s' : Script) (cap : Nat) (bs : List Nat) (e : Option IOErr)
    (h : scriptRead s cap = (bs, e, s')) (hb : bs ≠ []) :
    readOnce s cap = (bs, e, s') := by
  simp [readOnce, h, hb]

theorem readOnce_of_err (s s' : Script) (cap : Nat) (e : IOErr)
    (h : scriptRead s cap = ([], some e, s')) :
    readOnce s cap = ([], some e, s') := by
  simp [readOnce, h]

/-! ## Read state machine: header-byte loop lemmas -/

theorem rsHdr_done (fuel : Nat) (fr : Framer) (s : Script) (h : 1 ≤ fr.offset) :
    rsHdr (fuel + 1) fr s = some (fr, s, none) := by
  simp [rsHdr, Nat.not_lt.mpr h]

theorem rsHdr_byte (fuel : Nat) (fr : Framer) (s s' : Script) (x : Nat)
    (hoff : fr.offset = 0) (hro : readOnce s 1 = ([x], none, s')) :
    rsHdr (fuel + 2) fr s =
      some ({ fr with header := writeAt fr.header 0 [x], offset := 1 }, s', none) := by
  rw [rsHdr]
  rw [if_pos (by omega)]
  rw [hoff]
  simp only [Nat.sub_zero, hro]
  exact rsHdr_done fuel _ s' (by simp)

theorem rsHdr_byte_eof (fuel : Nat) (fr : Framer) (s s' : Script) (x : Nat)
    (hoff : fr.offset = 0) (hro : readOnce s 1 = ([x], some .eof, s')) :
    rsHdr (fuel + 1) fr s =
      some ({ fr with header := writeAt fr.header 0 [x], offset := 1 }, s', none) := by
  rw [rsHdr]
  rw [if_pos (by omega)]
  rw [hoff]
  simp [hro]

theorem rsHdr_eof0 (fuel : Nat) (fr : Framer) (s s' : Script)
    (hoff : fr.offset = 0) (hro : readOnce s 1 = ([], some .eof, s')) :
    rsHdr (fuel + 1) fr s = some (fr, s', some .eof) := by
  obtain ⟨rbo, wbo, rpr, wpr, rl, hd, ln, off, rb, wo, wl, wb⟩ := fr
  simp only at hoff
  subst hoff
  rw [rsHdr]
  rw [if_pos (by simp)]
  simp [hro, writeAt_nil]

/-! ## Read state machine: extended-length loop lemmas -/

theorem rsExt_done (fuel : Nat) (fr : Framer) (s : Script) (exLen : Nat)
    (h : 1 + exLen ≤ fr.offset) :
    rsExt (fuel + 1) fr s exLen = some (fr, s, none) := by
  simp [rsExt, Nat.not_lt.mpr h]

theorem rsExt_chunk (fuel : Nat) (fr : Framer) (s s' : Script) (exLen : Nat) (bs : List Nat)
    (hlt : fr.offset < 1 + exLen)
    (hro : readOnce s (1 + exLen - fr.offset) = (bs, none, s'))
    (hbs : bs.length = 1 + exLen - fr.offset) :
    rsExt (fuel + 2) fr s exLen =
      some ({ fr with header := writeAt fr.header fr.offset bs, offset := 1 + exLen },
        s', none) := by
  rw [rsExt]
  rw [if_pos hlt]
  simp only [hro]
  have hoff : fr.offset + bs.length = 1 + exLen := by omega
  rw [hoff]
  exact rsExt_done fuel _ s' exLen (by simp)

theorem rsExt_chunk_eof (fuel : Nat) (fr : Framer) (s s' : Script) (exLen : Nat) (bs : List Nat)
    (hlt : fr.offset < 1 + exLen)
    (hro : readOnce s (1 + exLen - fr.offset) = (bs, some .eof, s'))
    (hbs : bs.length = 1 + exLen - fr.offset) :
    rsExt (fuel + 1) fr s exLen =
      some ({ fr with header := writeAt fr.header fr.offset bs, offset := 1 + exLen },
        s', none) := by
  rw [rsExt]
  rw [if_pos hlt]
  simp only [hro]
  have hoff : fr.offset + bs.length = 1 + exLen := by omega
  simp [hoff]

theorem rsExt_step (fuel : Nat) (fr : Framer) (s s' : Script) (exLen : Nat) (bs : List Nat)
    (hlt : fr.offset < 1 + exLen)
    (hro : readOnce s (1 + exLen - fr.offset) = (bs, none, s')) :
    rsExt (fuel + 1) fr s exLen =
      rsExt fuel
        ({ fr with header := writeAt fr.header fr.offset bs, offset := fr.offset + bs.length })
        s' exLen := by
  rw [rsExt]
  rw [if_pos hlt]
  simp only [hro]

theorem rsExt_eofMid (fuel : Nat) (fr : Framer) (s s' : Script) (exLen : Nat)
    (hlt : fr.offset < 1 + exLen)
    (hro : readOnce s (1 + exLen - fr.offset) = ([], some .eof, s')) :
    rsExt (fuel + 1) fr s exLen = some (fr, s', some .unexpectedEOF) := by
  rw [rsExt]
  rw [if_pos hlt]
  simp only [hro, writeAt_nil, List.length_nil, Nat.add_zero]
  rw [if_pos hlt]

theorem rsExt_err (fuel : Nat) (fr : Framer) (s s' : Script) (exLen : Nat) (e : IOErr)
    (hlt : fr.offset < 1 + exLen) (hne : e ≠ .eof)
    (hro : readOnce s (1 + exLen - fr.offset) = ([], some e, s')) :
    rsExt (fuel + 1) fr s exLen = some (fr, s', some e) := by
  rw [rsExt]
  rw [if_pos hlt]
  simp only [hro, writeAt_nil, List.length_nil, Nat.add_zero]

/-! ## Read state machine: payload loop lemmas -/

theorem rsPay_done (fuel : Nat) (fr : Framer) (s : Script) (p : List Nat) (hdrSize n : Nat)
    (h : hdrSize + fr.length ≤ fr.offset) :
    rsPay (fuel + 1) fr s p hdrSize n = some (n, none, fr, s, p) := by
  simp [rsPay, Nat.not_lt.mpr h]

theorem rsPay_chunk (fuel : Nat) (fr : Framer) (s s' : Script) (p : List Nat)
    (hdrSize n : Nat) (bs : List Nat)
    (hlt : fr.offset < hdrSize + fr.length) (hge : hdrSize ≤ fr.offset)
    (hro : readOnce s (fr.length - (fr.offset - hdrSize)) = (bs, none, s'))
    (hbs : bs.length = fr.length - (fr.offset - hdrSize)) :
    rsPay (fuel + 2) fr s p hdrSize n =
      some (n + bs.length, none, { fr with offset := fr.offset + bs.length },
        s', writeAt p (fr.offset - hdrSize) bs) := by
  rw [rsPay]
  rw [if_pos hlt]
  simp only [hro]
  exact rsPay_done fuel _ s' _ hdrSize _ (by simp; omega)

theorem rsPay_chunk_eof (fuel : Nat) (fr : Framer) (s s' : Script) (p : List Nat)
    (hdrSize n : Nat) (bs : List Nat)
    (hlt : fr.offset < hdrSize + fr.length) (hge : hdrSize ≤ fr.offset)
    (hro : readOnce s (fr.length - (fr.offset - hdrSize)) = (bs, some .eof, s'))
    (hbs : bs.length = fr.length - (fr.offset - hdrSize)) :
    rsPay (fuel + 1) fr s p hdrSize n =
      some (n + bs.length, none, { fr with offset := fr.offset + bs.length },
        s', writeAt p (fr.offset - hdrSize) bs) := by
  rw [rsPay]
  rw [if_pos hlt]
  simp only [hro]
  rw [if_neg (by simp; omega)]

theorem rsPay_step (fuel : Nat) (fr : Framer) (s s' : Script) (p : List Nat)
    (hdrSize n : Nat) (bs : List Nat)
    (hlt : fr.offset < hdrSize + fr.length)
    (hro : readOnce s (fr.length - (fr.offset - hdrSize)) = (bs, none, s')) :
    rsPay (fuel + 1) fr s p hdrSize n =
      rsPay fuel { fr with offset := fr.offset + bs.length } s'
        (writeAt p (fr.offset - hdrSize) bs) hdrSize (n + bs.length) := by
  rw [rsPay]
  rw [if_pos hlt]
  simp only [hro]

theorem rsPay_eofMid (fuel : Nat) (fr : Framer) (s s' : Script) (p : List Nat)
    (hdrSize n : Nat)
    (hlt : fr.offset < hdrSize + fr.length)
    (hro : readOnce s (fr.length - (fr.offset - hdrSize)) = ([], some .eof, s')) :
    rsPay (fuel + 1) fr s p hdrSize n = some (n, some .unexpectedEOF, fr, s', p) := by
  rw [rsPay]
  rw [if_pos hlt]
  simp only [hro, writeAt_nil, List.length_nil, Nat.add_zero]
  rw [if_pos hlt]

theorem rsPay_err (fuel : Nat) (fr : Framer) (s s' : Script) (p : List Nat)
    (hdrSize n : Nat) (e : IOErr)
    (hlt : fr.offset < hdrSize + fr.length) (hne : e ≠ .eof)
    (hro : readOnce s (fr.length - (fr.offset - hdrSize)) = ([], some e, s')) :
    rsPay (fuel + 1) fr s p hdrSize n = some (n, some e, fr, s', p) := by
  rw [rsPay]
  rw [if_pos hlt]
  simp only [hro, writeAt_nil, List.length_nil, Nat.add_zero]

/-! ## Serving lemmas for chunked scripts -/

theorem scriptRead_serve (b : List Nat) (rest : Script) (cap : Nat)
    (h1 : 0 < cap) (h2 : cap ≤ b.length) :
    scriptRead ((b, none) :: rest) cap = (b.take cap, none, stepAfter (b.drop cap) none rest) := by
  rcases Nat.lt_or_ge cap b.length with hlt | hge
  · rw [scriptRead_take b none rest cap hlt]
    have : b.drop cap ≠ [] := by
      intro h
      have := List.length_drop cap b
      rw [h] at this
      simp at this
      omega
    rw [stepAfter, if_neg this]
  · have heq : cap = b.length := by omega
    have hb : b ≠ [] := by
      intro h
      simp [h] at h2
      omega
    rw [scriptRead_all b none rest cap hb (by omega)]
    rw [heq, List.take_length, List.drop_length, stepAfter, if_pos rfl]

theorem readOnce_serve (b : List Nat) (rest : Script) (cap : Nat)
    (h1 : 0 < cap) (h2 : cap ≤ b.length) :
    readOnce ((b, none) :: rest) cap = (b.take cap, none, stepAfter (b.drop cap) none rest) := by
  have hne : b.take cap ≠ [] := by
    intro h
    have := List.length_take cap b
    rw [h] at this
    simp at this
    omega
  exact readOnce_of_ne_nil _ _ _ _ _ (scriptRead_serve b rest cap h1 h2) hne

theorem readOnce_serveAllE (b : List Nat) (e : Option IOErr) (rest : Script) (cap : Nat)
    (hb : b ≠ []) (h2 : b.length ≤ cap) :
    readOnce ((b, e) :: rest) cap = (b, e, rest) :=
  readOnce_of_ne_nil _ _ _ _ _ (scriptRead_all b e rest cap hb h2) hb

theorem readOnce_take (b : List Nat) (e : Option IOErr) (rest : Script) (cap : Nat)
    (h1 : 0 < cap) (hcap : cap < b.length) :
    readOnce ((b, e) :: rest) cap = (b.take cap, none, (b.drop cap, e) :: rest) := by
  have hne : b.take cap ≠ [] := by
    intro h
    have := List.length_take cap b
    rw [h] at this
    simp at this
    omega
  exact readOnce_of_ne_nil _ _ _ _ _ (scriptRead_take b e rest cap hcap) hne

theorem readOnce_empty_err (e : Option IOErr) (rest : Script) (cap : Nat) (he : e ≠ none) :
    readOnce (([], e) :: rest) cap = ([], e, rest) := by
  rcases e with _ | e
  · simp at he
  · exact readOnce_of_err _ _ _ _ (scriptRead_empty (some e) rest cap)

theorem readOnce_exhausted (cap : Nat) :
    readOnce [] cap = ([], some .eof, []) :=
  readOnce_of_err _ _ _ _ (scriptRead_nil cap)

theorem getD_writeAt_zero (l d : List Nat) (x : Nat) :
    (writeAt l 0 (x :: d)).getD 0 0 = x := by
  simp [writeAt_zero]

theorem encHeader_split (bo : ByteOrd) (L : Nat) (h : L ≤ 2 ^ 56 - 1) :
    ∃ h0 t, encHeader bo L = h0 :: t ∧ t.length = exLenOfLen L := by
  have hl := encHeader_length bo L h
  rcases he : encHeader bo L with _ | ⟨h0, t⟩
  · rw [he] at hl
    simp only [List.length_nil, hdrSizeOfLen] at hl
    omega
  · rw [he] at hl
    simp only [List.length_cons, hdrSizeOfLen] at hl
    exact ⟨h0, t, rfl, by omega⟩

/-! ## One-message decode lemma -/

/-- Decoding one whole framed message whose wire form sits at the head of the
script's first chunk: `readStream` returns `(len(p), ok)`, places `p` at the
start of `dst`, resets the per-message state, stores the header bytes in the
header scratch and leaves the remainder of the chunk unconsumed. -/
theorem readStream_msg_ok (fuel : Nat) (fr : Framer) (p tail dst : List Nat) (rest : Script)
    (hfuel : 2 ≤ fuel)
    (hoff : fr.offset = 0) (hh8 : fr.header.length = 8)
    (hp : p.length ≤ 2 ^ 56 - 1)
    (hlim : fr.readLimit = 0 ∨ p.length ≤ fr.readLimit)
    (hdst : p.length ≤ dst.length) :
    readStream fuel fr ((encWire fr.rbo p ++ tail, none) :: rest) dst =
      some (p.length, none,
        ({ fr with offset := 0, length := 0,
                   header := writeAt fr.header 0 (encHeader fr.rbo p.length) }),
        stepAfter tail none rest, writeAt dst 0 p) := by
  obtain ⟨fuel, rfl⟩ : ∃ f, fuel = f + 2 := ⟨fuel - 2, by omega⟩
  obtain ⟨h0, t, hH, ht⟩ := encHeader_split fr.rbo p.length hp
  have hwire : encWire fr.rbo p ++ tail = h0 :: (t ++ (p ++ tail)) := by
    rw [encWire, hH]
    simp [List.append_assoc]
  have hro1 : readOnce ((encWire fr.rbo p ++ tail, none) :: rest) 1 =
      ([h0], none, stepAfter (t ++ (p ++ tail)) none rest) := by
    rw [hwire]
    have h := readOnce_serve (h0 :: (t ++ (p ++ tail))) rest 1 (by omega) (by simp)
    simpa using h
  have hstep1 := rsHdr_byte fuel fr _ _ h0 hoff hro1
  set fr1 : Framer := { fr with header := writeAt fr.header 0 [h0], offset := 1 } with hfr1
  have hget : fr1.header.getD 0 0 = h0 := getD_writeAt_zero fr.header [] h0
  have hh0 : h0 = (encHeader fr.rbo p.length).getD 0 0 := by rw [hH]; rfl
  have hexl : extLenOf h0 = exLenOfLen p.length := by
    rw [hh0]
    exact extLenOf_encHeader fr.rbo p.length hp
  set fr2 : Framer :=
    { fr with header := writeAt fr.header 0 (h0 :: t), offset := 1 + exLenOfLen p.length }
    with hfr2
  have hext : rsExt (fuel + 2) fr1 (stepAfter (t ++ (p ++ tail)) none rest)
      (exLenOfLen p.length) = some (fr2, stepAfter (p ++ tail) none rest, none) := by
    by_cases hex0 : exLenOfLen p.length = 0
    · have ht0 : t = [] := List.length_eq_zero.mp (by omega)
      subst ht0
      rw [hex0]
      have := rsExt_done (fuel + 1) fr1 (stepAfter ([] ++ (p ++ tail)) none rest) 0 (by simp [hfr1])
      rw [this]
      simp [hfr1, hfr2, hex0]
    · have htne : t ≠ [] := by
        intro h
        rw [h] at ht
        simp at ht
        omega
      have hsa : stepAfter (t ++ (p ++ tail)) none rest = (t ++ (p ++ tail), none) :: rest := by
        rw [stepAfter, if_neg (by simp [htne])]
      rw [hsa]
      have hro2 : readOnce ((t ++ (p ++ tail), none) :: rest)
          (1 + exLenOfLen p.length - fr1.offset) = (t, none, stepAfter (p ++ tail) none rest) := by
        have hcap : 1 + exLenOfLen p.length - fr1.offset = exLenOfLen p.length := by
          simp [hfr1]
        rw [hcap]
        have h := readOnce_serve (t ++ (p ++ tail)) rest (exLenOfLen p.length)
          (by omega) (by simp [ht])
        rw [h, ← ht, List.take_left, List.drop_left]
      have := rsExt_chunk fuel fr1 _ _ (exLenOfLen p.length) t
        (by simp [hfr1]; omega) hro2 (by simp [hfr1, ht])
      rw [this]
      congr 1
      congr 1
      rw [hfr1, hfr2]
      simp only
      congr 1
      have : (1 : Nat) = [h0].length := rfl
      rw [show writeAt (writeAt fr.header 0 [h0]) 1 t =
          writeAt (writeAt fr.header 0 [h0]) [h0].length t from rfl]
      rw [writeAt_chain]
      rfl
  have hparse : parseLen fr2.rbo (exLenOfLen p.length) fr2.header = p.length := by
    have : fr2.header = writeAt fr.header 0 (encHeader fr.rbo p.length) := by
      rw [hfr2, hH]
    rw [this]
    exact parseLen_writeAt_encHeader fr.rbo p.length fr.header hh8 hp
  have hparse' : parseLen fr.rbo (exLenOfLen p.length) (writeAt fr.header 0 (h0 :: t)) =
      p.length := by
    rw [← hH]
    exact parseLen_writeAt_encHeader fr.rbo p.length fr.header hh8 hp
  have hc1 : ¬ (2 ^ 56 - 1 < p.length) := by omega
  have hc2 : ¬ (0 < fr.readLimit ∧ fr.readLimit < p.length) := by
    rcases hlim with h | h <;> omega
  have hc3 : ¬ (dst.length < p.length) := by omega
  have hpay : rsPay (fuel + 2)
      ({ fr with header := writeAt fr.header 0 (h0 :: t), length := p.length,
                 offset := 1 + exLenOfLen p.length })
      (stepAfter (p ++ tail) none rest) dst (1 + exLenOfLen p.length) 0 =
      some (p.length, none,
        ({ fr with header := writeAt fr.header 0 (h0 :: t), length := p.length,
                   offset := 1 + exLenOfLen p.length + p.length }),
        stepAfter tail none rest, writeAt dst 0 p) := by
    by_cases hp0 : p = []
    · subst hp0
      have e2 : fuel + 2 = fuel + 1 + 1 := rfl
      rw [e2]
      rw [rsPay_done (fuel + 1) _ _ _ _ _ (by simp)]
      simp [writeAt_nil]
    · have hne : p ++ tail ≠ [] := by simp [hp0]
      rw [stepAfter, if_neg hne]
      have hplen : 0 < p.length := List.length_pos.mpr hp0
      have hro3 : readOnce ((p ++ tail, none) :: rest)
          (p.length - (1 + exLenOfLen p.length - (1 + exLenOfLen p.length))) =
          (p, none, stepAfter tail none rest) := by
        rw [show p.length - (1 + exLenOfLen p.length - (1 + exLenOfLen p.length)) = p.length
          from by omega]
        rw [readOnce_serve (p ++ tail) rest p.length hplen (by simp)]
        rw [List.take_left, List.drop_left]
      rw [rsPay_chunk fuel _ _ _ dst _ 0 p (by simp; omega) (by simp) hro3 (by simp)]
      simp
  -- assemble the whole call
  rw [readStream]
  rw [hstep1]
  simp only [hget, hexl]
  rw [if_pos (le_refl 1)]
  rw [hext]
  simp only
  rw [if_true]
  dsimp only
  rw [hparse']
  rw [if_neg hc1]
  rw [if_neg hc2]
  rw [if_neg hc3]
  rw [hpay]
  dsimp only
  rw [← hH]

/-! ## Write-side lemmas -/

theorem length_bPutUint64 (bo : ByteOrd) (v : Nat) : (bPutUint64 bo v).length = 8 := by
  cases bo <;> simp [bPutUint64, length_toBytesLE]

theorem buildHeader_take (bo : ByteOrd) (L : Nat) (h8 : List Nat)
    (hh8 : h8.length = 8) (h : L ≤ 2 ^ 56 - 1) :
    (buildHeader bo L h8).take (hdrSizeOfLen L) = encHeader bo L := by
  by_cases h0 : L ≤ 253
  · rw [encHeader_class0 bo L h0]
    simp only [buildHeader, if_pos h0, hdrSizeOfLen, exLenOfLen]
    simp [writeAt_zero, h0]
  · by_cases h2 : L ≤ 65535
    · rw [encHeader_class2 bo L (by omega) h2]
      have hsz : hdrSizeOfLen L = 3 := by simp [hdrSizeOfLen, exLenOfLen, h0, h2]
      rw [hsz]
      have hm : L % 2 ^ 16 = L := Nat.mod_eq_of_lt (by omega)
      simp only [buildHeader, if_neg h0, if_pos h2, hm]
      have hl := bPutUint16_length bo L
      rcases hb : bPutUint16 bo L with _ | ⟨b1, _ | ⟨b2, u⟩⟩ <;> rw [hb] at hl <;> simp at hl
      subst hl
      simp [writeAt]
    · have hsz : hdrSizeOfLen L = 8 := by simp [hdrSizeOfLen, exLenOfLen, h0, h2]
      rw [hsz]
      have hbl : (buildHeader bo L h8).length = 8 := by
        simp only [buildHeader, if_neg h0, if_neg h2]
        cases bo <;>
          simp [writeAt, length_bPutUint64]
      have hrepl : buildHeader bo L h8 = buildHeader bo L (List.replicate 8 0) := by
        simp only [buildHeader, if_neg h0, if_neg h2]
      rw [List.take_of_length_le (le_of_eq hbl), hrepl]
      have : encHeader bo L = (buildHeader bo L (List.replicate 8 0)).take 8 := by
        rw [encHeader, hsz]
      rw [this]
      have hbl2 : (buildHeader bo L (List.replicate 8 0)).length = 8 := by
        simp only [buildHeader, if_neg h0, if_neg h2]
        cases bo <;> simp [writeAt, length_bPutUint64]
      rw [List.take_of_length_le (le_of_eq hbl2)]

theorem wsHdr_done (W : WriterM σ) (fuel : Nat) (fr : Framer) (w : σ) (hdrSize : Nat)
    (h : hdrSize ≤ fr.offset) :
    wsHdr W (fuel + 1) fr w hdrSize = some (fr, w, none) := by
  simp [wsHdr, Nat.not_lt.mpr h]

theorem wsHdr_chunk (W : WriterM σ) (fuel : Nat) (fr : Framer) (w w' : σ) (hdrSize : Nat)
    (hlt : fr.offset < hdrSize)
    (hwo : writeOnce W w ((fr.header.drop fr.offset).take (hdrSize - fr.offset)) =
      (hdrSize - fr.offset, none, w')) :
    wsHdr W (fuel + 2) fr w hdrSize = some ({ fr with offset := hdrSize }, w', none) := by
  rw [wsHdr]
  rw [if_pos hlt]
  simp only [hwo]
  have hoff : fr.offset + (hdrSize - fr.offset) = hdrSize := by omega
  rw [hoff]
  exact wsHdr_done W fuel _ w' hdrSize (by simp)

theorem wsHdr_err (W : WriterM σ) (fuel : Nat) (fr : Framer) (w w' : σ) (hdrSize wn : Nat)
    (e : IOErr) (hlt : fr.offset < hdrSize)
    (hwo : writeOnce W w ((fr.header.drop fr.offset).take (hdrSize - fr.offset)) =
      (wn, some e, w')) :
    wsHdr W (fuel + 1) fr w hdrSize = some ({ fr with offset := fr.offset + wn }, w', some e) := by
  rw [wsHdr]
  rw [if_pos hlt]
  simp only [hwo]

theorem wsPay_done (W : WriterM σ) (fuel : Nat) (fr : Framer) (w : σ) (p : List Nat)
    (hdrSize n : Nat) (h : hdrSize + fr.length ≤ fr.offset) :
    wsPay W (fuel + 1) fr w p hdrSize n = some (fr, w, n, none) := by
  simp [wsPay, Nat.not_lt.mpr h]

theorem wsPay_chunk (W : WriterM σ) (fuel : Nat) (fr : Framer) (w w' : σ) (p : List Nat)
    (hdrSize n : Nat) (hlt : fr.offset < hdrSize + fr.length)
    (hwo : writeOnce W w (p.drop (fr.offset - hdrSize)) =
      ((p.drop (fr.offset - hdrSize)).length, none, w'))
    (hfin : fr.offset + (p.drop (fr.offset - hdrSize)).length = hdrSize + fr.length) :
    wsPay W (fuel + 2) fr w p hdrSize n =
      some ({ fr with offset := hdrSize + fr.length }, w',
        n + (p.drop (fr.offset - hdrSize)).length, none) := by
  rw [wsPay]
  rw [if_pos hlt]
  simp only [hwo]
  rw [hfin]
  exact wsPay_done W fuel _ w' p hdrSize _ (by simp)

theorem wsPay_err (W : WriterM σ) (fuel : Nat) (fr : Framer) (w w' : σ) (p : List Nat)
    (hdrSize n wn : Nat) (e : IOErr) (hlt : fr.offset < hdrSize + fr.length)
    (hwo : writeOnce W w (p.drop (fr.offset - hdrSize)) = (wn, some e, w')) :
    wsPay W (fuel + 1) fr w p hdrSize n =
      some ({ fr with offset := fr.offset + wn }, w', n + wn, some e) := by
  rw [wsPay]
  rw [if_pos hlt]
  simp only [hwo]

/-- `writeStream` against a sink that accepts every write in full (`happ`
gives its step, `happ0` says accepting nothing changes nothing): a message
write from a fresh per-message state emits the canonical header followed by
the payload and returns `(len(p), ok)`. -/
theorem writeStream_total (W : WriterM σ) (app : σ → List Nat → σ)
    (happ : ∀ w q, W.write w q = (q.length, none, app w q))
    (happ0 : ∀ w, app w [] = w)
    (fuel : Nat) (fr : Framer) (w : σ) (p : List Nat)
    (hfuel : 2 ≤ fuel)
    (hoff : fr.offset = 0) (hh8 : fr.header.length = 8) (hp : p.length ≤ 2 ^ 56 - 1) :
    writeStream W fuel fr w p =
      some (p.length, none,
        ({ fr with offset := 0, length := 0,
                   header := buildHeader fr.wbo p.length fr.header }),
        app (app w (encHeader fr.wbo p.length)) p) := by
  obtain ⟨fuel, rfl⟩ : ∃ f, fuel = f + 2 := ⟨fuel - 2, by omega⟩
  obtain ⟨rbo, wbo, rpr, wpr, rl, hd, ln, off, rb, wo, wl, wb⟩ := fr
  dsimp only at hoff hh8
  subst hoff
  have hhlen : (encHeader wbo p.length).length = hdrSizeOfLen p.length :=
    encHeader_length wbo p.length hp
  have hwo1 : writeOnce W w ((buildHeader wbo p.length hd).drop 0 |>.take
      (1 + exLenOfLen p.length - 0)) =
      (1 + exLenOfLen p.length - 0, none, app w (encHeader wbo p.length)) := by
    rw [List.drop_zero, Nat.sub_zero, show (1 + exLenOfLen p.length) = hdrSizeOfLen p.length
      from rfl, buildHeader_take wbo p.length hd hh8 hp]
    rw [writeOnce, happ]
    dsimp only
    rw [if_neg (fun h => h.1 h.2.1)]
    rw [hhlen]
  rw [writeStream]
  rw [if_neg (show ¬ (2 ^ 56 - 1 < p.length) from by omega)]
  dsimp only
  rw [if_pos rfl]
  rw [if_neg (show ¬ (p.length ≠ p.length) from fun h => h rfl)]
  simp only
  rw [if_true]
  rw [wsHdr_chunk W fuel _ w (app w (encHeader wbo p.length)) (1 + exLenOfLen p.length)
    (by simp) hwo1]
  simp only
  have hpay2 : wsPay W (fuel + 2)
      ({ rbo := rbo, wbo := wbo, rpr := rpr, wpr := wpr, readLimit := rl,
         header := buildHeader wbo p.length hd, length := p.length,
         offset := 1 + exLenOfLen p.length, rbuf := rb, wtOff := wo, wtLen := wl,
         wbuf := wb })
      (app w (encHeader wbo p.length)) p (1 + exLenOfLen p.length) 0 =
      some (({ rbo := rbo, wbo := wbo, rpr := rpr, wpr := wpr, readLimit := rl,
               header := buildHeader wbo p.length hd, length := p.length,
               offset := 1 + exLenOfLen p.length + p.length, rbuf := rb, wtOff := wo,
               wtLen := wl, wbuf := wb }),
        app (app w (encHeader wbo p.length)) p, p.length, none) := by
    by_cases hp0 : p = []
    · subst hp0
      rw [show fuel + 2 = fuel + 1 + 1 from rfl]
      rw [wsPay_done W (fuel + 1) _ _ _ _ _ (by simp)]
      rw [happ0]
      simp
    · have hz : 1 + exLenOfLen p.length - (1 + exLenOfLen p.length) = 0 := Nat.sub_self _
      have hwo2 : writeOnce W (app w (encHeader wbo p.length))
          (p.drop (1 + exLenOfLen p.length - (1 + exLenOfLen p.length))) =
          ((p.drop (1 + exLenOfLen p.length - (1 + exLenOfLen p.length))).length, none,
            app (app w (encHeader wbo p.length)) p) := by
        rw [hz, List.drop_zero, writeOnce, happ]
        dsimp only
        rw [if_neg (fun h => h.1 h.2.1)]
      have hlt2 : 1 + exLenOfLen p.length < 1 + exLenOfLen p.length + p.length := by
        have := List.length_pos.mpr hp0
        omega
      rw [wsPay_chunk W fuel _ _ (app (app w (encHeader wbo p.length)) p) p
        (1 + exLenOfLen p.length) 0 (by simp; omega) hwo2 (by simp)]
      simp [hz]
  rw [hpay2]

/-! ## Claim C1: stream round-trip identity -/

/-- Run one `write_one` of payload `p` on a fresh stream-mode codec against an
accept-all sink, returning `(n, err, wire bytes emitted)`. -/
def encodeOne (bo : ByteOrd) (p : List Nat) : Option (Nat × Option IOErr × List Nat) :=
  (writeStream bufW 8 (mkFramer bo 0) [] p).map (fun r => (r.1, r.2.1, r.2.2.2))

/-- Run one `read_one` on a fresh stream-mode codec whose transport serves
`wire` in one chunk, returning `(n, err, destination after the call)`. -/
def decodeOne (bo : ByteOrd) (limit : Nat) (wire dst : List Nat) :
    Option (Nat × Option IOErr × List Nat) :=
  (readStream 8 (mkFramer bo limit) [(wire, none)] dst).map (fun r => (r.1, r.2.1, r.2.2.2.2))

theorem encodeOne_eq (bo : ByteOrd) (p : List Nat) (hp : p.length ≤ 2 ^ 56 - 1) :
    encodeOne bo p = some (p.length, none, encWire bo p) := by
  rw [encodeOne]
  rw [writeStream_total bufW (fun w q => w ++ q) (fun w q => rfl) (fun w => List.append_nil w)
    8 (mkFramer bo 0) [] p (by omega) rfl rfl hp]
  simp [encWire, mkFramer]

theorem decodeOne_eq (bo : ByteOrd) (limit : Nat) (p dst : List Nat)
    (hp : p.length ≤ 2 ^ 56 - 1) (hlim : limit = 0 ∨ p.length ≤ limit)
    (hdst : p.length ≤ dst.length) :
    decodeOne bo limit (encWire bo p) dst = some (p.length, none, writeAt dst 0 p) := by
  rw [decodeOne]
  have hw : encWire bo p = encWire (mkFramer bo limit).rbo p ++ [] := by
    simp [mkFramer]
  rw [hw]
  rw [readStream_msg_ok 8 (mkFramer bo limit) p [] dst [] (by omega) rfl rfl hp hlim hdst]
  simp [stepAfter]

/-- C1 — Stream-mode round-trip identity: for every payload `p` with
`len(p) ≤ 2^56-1` and each byte order, encoding `p` with the stream write
state machine produces the canonical wire, and decoding that wire with the
stream read state machine (destination of at least `len(p)` bytes, no read
limit) returns byte count `len(p)` with signal ok and places exactly `p`
in the destination. -/
theorem c1_stream_roundtrip (bo : ByteOrd) (p dst : List Nat)
    (hp : p.length ≤ 2 ^ 56 - 1) (hdst : p.length ≤ dst.length) :
    encodeOne bo p = some (p.length, none, encWire bo p) ∧
    decodeOne bo 0 (encWire bo p) dst = some (p.length, none, writeAt dst 0 p) ∧
    (writeAt dst 0 p).take p.length = p := by
  refine ⟨encodeOne_eq bo p hp, decodeOne_eq bo 0 p dst hp (Or.inl rfl) hdst, ?_⟩
  exact take_writeAt_zero dst p

set_option maxRecDepth 8000 in
/-- Witness for C1 at concrete inputs, both byte orders. -/
theorem c1_stream_roundtrip_witness :
    (encodeOne .big [1, 2, 3] = some (3, none, encWire .big [1, 2, 3]) ∧
     decodeOne .big 0 (encWire .big [1, 2, 3]) [0, 0, 0] =
       some (3, none, writeAt [0, 0, 0] 0 [1, 2, 3]) ∧
     (writeAt [0, 0, 0] 0 [1, 2, 3]).take 3 = [1, 2, 3]) ∧
    (encodeOne .little (List.replicate 300 7) =
       some (300, none, encWire .little (List.replicate 300 7)) ∧
     decodeOne .little 0 (encWire .little (List.replicate 300 7)) (List.replicate 300 0) =
       some (300, none, writeAt (List.replicate 300 0) 0 (List.replicate 300 7)) ∧
     (writeAt (List.replicate 300 0) 0 (List.replicate 300 7)).take 300 = List.replicate 300 7) :=
  ⟨c1_stream_roundtrip .big [1, 2, 3] [0, 0, 0] (by norm_num) (by norm_num),
   c1_stream_roundtrip .little (List.replicate 300 7) (List.replicate 300 0)
     (by simp) (by simp)⟩

/-! ## Claim C2: size-class boundaries of the wire header -/

/-- C2 — Size-class boundaries: for payload lengths `0, 1, 253, 254, 255,
65535, 65536` the stream write state machine emits a header of size
`1, 1, 1, 3, 3, 3, 8` bytes with lead byte `L, L, L, 0xFE, 0xFE, 0xFE, 0xFF`
respectively, and the read state machine derives the matching extended-length
size (`0`, `2` or `7`) from that lead byte. -/
theorem c2_size_class_boundaries (bo : ByteOrd) :
    (encodeOne bo (List.replicate 0 0) =
        some ((List.replicate 0 0).length, none,
          encHeader bo (List.replicate 0 0).length ++ List.replicate 0 0) ∧
      (encHeader bo 0).length = 1 ∧ (encHeader bo 0).getD 0 0 = 0 ∧ extLenOf 0 = 1 - 1) ∧
    (encodeOne bo (List.replicate 1 0) =
        some ((List.replicate 1 0).length, none,
          encHeader bo (List.replicate 1 0).length ++ List.replicate 1 0) ∧
      (encHeader bo 1).length = 1 ∧ (encHeader bo 1).getD 0 0 = 1 ∧ extLenOf 1 = 1 - 1) ∧
    (encodeOne bo (List.replicate 253 0) =
        some ((List.replicate 253 0).length, none,
          encHeader bo (List.replicate 253 0).length ++ List.replicate 253 0) ∧
      (encHeader bo 253).length = 1 ∧ (encHeader bo 253).getD 0 0 = 253 ∧
      extLenOf 253 = 1 - 1) ∧
    (encodeOne bo (List.replicate 254 0) =
        some ((List.replicate 254 0).length, none,
          encHeader bo (List.replicate 254 0).length ++ List.replicate 254 0) ∧
      (encHeader bo 254).length = 3 ∧ (encHeader bo 254).getD 0 0 = 254 ∧
      extLenOf 254 = 3 - 1) ∧
    (encodeOne bo (List.replicate 255 0) =
        some ((List.replicate 255 0).length, none,
          encHeader bo (List.replicate 255 0).length ++ List.replicate 255 0) ∧
      (encHeader bo 255).length = 3 ∧ (encHeader bo 255).getD 0 0 = 254 ∧
      extLenOf 254 = 3 - 1) ∧
    (encodeOne bo (List.replicate 65535 0) =
        some ((List.replicate 65535 0).length, none,
          encHeader bo (List.replicate 65535 0).length ++ List.replicate 65535 0) ∧
      (encHeader bo 65535).length = 3 ∧ (encHeader bo 65535).getD 0 0 = 254 ∧
      extLenOf 254 = 3 - 1) ∧
    (encodeOne bo (List.replicate 65536 0) =
        some ((List.replicate 65536 0).length, none,
          encHeader bo (List.replicate 65536 0).length ++ List.replicate 65536 0) ∧
      (encHeader bo 65536).length = 8 ∧ (encHeader bo 65536).getD 0 0 = 255 ∧
      extLenOf 255 = 8 - 1) := by
  have aux : ∀ L : Nat, L ≤ 2 ^ 56 - 1 →
      encodeOne bo (List.replicate L 0) =
        some ((List.replicate L 0).length, none,
          encHeader bo (List.replicate L 0).length ++ List.replicate L 0) := by
    intro L h
    simpa [encWire] using encodeOne_eq bo (List.replicate L 0) (by simpa using h)
  refine ⟨⟨aux 0 (by norm_num), ?_, ?_, by decide⟩,
    ⟨aux 1 (by norm_num), ?_, ?_, by decide⟩,
    ⟨aux 253 (by norm_num), ?_, ?_, by decide⟩,
    ⟨aux 254 (by norm_num), ?_, ?_, by decide⟩,
    ⟨aux 255 (by norm_num), ?_, ?_, by decide⟩,
    ⟨aux 65535 (by norm_num), ?_, ?_, by decide⟩,
    ⟨aux 65536 (by norm_num), ?_, ?_, by decide⟩⟩ <;>
  first
    | (rw [encHeader_length bo _ (by norm_num)]; norm_num [hdrSizeOfLen, exLenOfLen])
    | (rw [encHeader_head bo _ (by norm_num)]; norm_num)

/-! ## Header-stage and resume lemmas -/

/-- After the lead byte `h0` has been read, the extended-length loop consumes
exactly the `E` extended bytes `t` from the head of the remaining chunk. -/
theorem rsExt_consume (fuel : Nat) (fr : Framer) (h0 : Nat) (t u : List Nat) (rest : Script)
    (E : Nat) (ht : t.length = E) :
    rsExt (fuel + 2) ({ fr with header := writeAt fr.header 0 [h0], offset := 1 })
      (stepAfter (t ++ u) none rest) E =
      some (({ fr with header := writeAt fr.header 0 (h0 :: t), offset := 1 + E }),
        stepAfter u none rest, none) := by
  by_cases hex0 : E = 0
  · have ht0 : t = [] := List.length_eq_zero.mp (by omega)
    subst ht0
    subst hex0
    have := rsExt_done (fuel + 1)
      ({ fr with header := writeAt fr.header 0 [h0], offset := 1 })
      (stepAfter ([] ++ u) none rest) 0 (by simp)
    rw [this]
    simp
  · have htne : t ≠ [] := by
      intro h
      rw [h] at ht
      simp at ht
      omega
    have hsa : stepAfter (t ++ u) none rest = (t ++ u, none) :: rest := by
      rw [stepAfter, if_neg (by simp [htne])]
    rw [hsa]
    have hro2 : readOnce ((t ++ u, none) :: rest)
        (1 + E - ({ fr with header := writeAt fr.header 0 [h0], offset := 1 } : Framer).offset) =
        (t, none, stepAfter u none rest) := by
      have hcap : 1 + E -
          ({ fr with header := writeAt fr.header 0 [h0], offset := 1 } : Framer).offset = E := by
        simp
      rw [hcap]
      have h := readOnce_serve (t ++ u) rest E (by omega) (by simp [ht])
      rw [h, ← ht, List.take_left, List.drop_left]
    have := rsExt_chunk fuel _ _ _ E t (by simp; omega) hro2 (by simp [ht])
    rw [this]
    congr 1
    congr 1
    simp only
    congr 1
    rw [show writeAt (writeAt fr.header 0 [h0]) 1 t =
        writeAt (writeAt fr.header 0 [h0]) [h0].length t from rfl]
    rw [writeAt_chain]
    rfl

/-- First call of C10's scenario: the destination is smaller than the parsed
length, so `readStream` returns `(0, short-buffer)` right after header
parsing, consuming exactly the header bytes from the transport and leaving
`offset`, `length` and the header scratch in the post-parse state. -/
theorem readStream_shortBuffer (fuel : Nat) (fr : Framer) (L : Nat) (body dst : List Nat)
    (rest : Script) (hfuel : 2 ≤ fuel)
    (hoff : fr.offset = 0) (hh8 : fr.header.length = 8)
    (hp : L ≤ 2 ^ 56 - 1)
    (hlim : fr.readLimit = 0 ∨ L ≤ fr.readLimit)
    (hdst : dst.length < L) :
    readStream fuel fr ((encHeader fr.rbo L ++ body, none) :: rest) dst =
      some (0, some .shortBuffer,
        ({ fr with header := writeAt fr.header 0 (encHeader fr.rbo L),
                   offset := hdrSizeOfLen L, length := L }),
        stepAfter body none rest, dst) := by
  obtain ⟨fuel, rfl⟩ : ∃ f, fuel = f + 2 := ⟨fuel - 2, by omega⟩
  obtain ⟨h0, t, hH, ht⟩ := encHeader_split fr.rbo L hp
  have hwire : encHeader fr.rbo L ++ body = h0 :: (t ++ body) := by
    rw [hH]
    simp
  have hro1 : readOnce ((encHeader fr.rbo L ++ body, none) :: rest) 1 =
      ([h0], none, stepAfter (t ++ body) none rest) := by
    rw [hwire]
    have h := readOnce_serve (h0 :: (t ++ body)) rest 1 (by omega) (by simp)
    simpa using h
  have hstep1 := rsHdr_byte fuel fr _ _ h0 hoff hro1
  have hget : (writeAt fr.header 0 [h0]).getD 0 0 = h0 := getD_writeAt_zero fr.header [] h0
  have hexl : extLenOf h0 = exLenOfLen L := by
    rw [show h0 = (encHeader fr.rbo L).getD 0 0 from by rw [hH]; rfl]
    exact extLenOf_encHeader fr.rbo L hp
  have hext := rsExt_consume fuel fr h0 t body rest (exLenOfLen L) ht
  have hparse' : parseLen fr.rbo (exLenOfLen L) (writeAt fr.header 0 (h0 :: t)) = L := by
    rw [← hH]
    exact parseLen_writeAt_encHeader fr.rbo L fr.header hh8 hp
  have hc1 : ¬ (2 ^ 56 - 1 < L) := by omega
  have hc2 : ¬ (0 < fr.readLimit ∧ fr.readLimit < L) := by
    rcases hlim with h | h <;> omega
  rw [readStream]
  rw [hstep1]
  simp only [hget, hexl]
  rw [if_pos (le_refl 1)]
  rw [hext]
  simp only
  rw [if_true]
  dsimp only
  rw [hparse']
  rw [if_neg hc1]
  rw [if_neg hc2]
  rw [if_pos hdst]
  rw [← hH]
  rfl

/-- Resumed `read_one` of a message whose header is already parsed
(`offset` inside the payload region): the call serves the missing payload
bytes, completes the message, and returns only the bytes read in this call
without re-reading any header bytes from the transport. -/
theorem readStream_resume_pay (fuel : Nat) (fr : Framer) (p tail dst : List Nat)
    (rest : Script) (k : Nat) (h8 : List Nat)
    (hfuel : 2 ≤ fuel) (hh8 : h8.length = 8)
    (hhdr : fr.header = writeAt h8 0 (encHeader fr.rbo p.length))
    (hlen : fr.length = p.length)
    (hoff : fr.offset = k)
    (hk1 : hdrSizeOfLen p.length ≤ k) (hk2 : k < hdrSizeOfLen p.length + p.length)
    (hp : p.length ≤ 2 ^ 56 - 1)
    (hlim : fr.readLimit = 0 ∨ p.length ≤ fr.readLimit)
    (hdst : p.length ≤ dst.length) :
    readStream fuel fr ((p.drop (k - hdrSizeOfLen p.length) ++ tail, none) :: rest) dst =
      some (p.length - (k - hdrSizeOfLen p.length), none,
        ({ fr with offset := 0, length := 0 }),
        stepAfter tail none rest,
        writeAt dst (k - hdrSizeOfLen p.length) (p.drop (k - hdrSizeOfLen p.length))) := by
  obtain ⟨fuel, rfl⟩ : ∃ f, fuel = f + 2 := ⟨fuel - 2, by omega⟩
  obtain ⟨rbo, wbo, rpr, wpr, rl, hd, ln, off, rb, wo, wl, wb⟩ := fr
  dsimp only at hhdr hlen hoff hlim
  subst hhdr
  subst hlen
  subst hoff
  have hk1' : 1 + exLenOfLen p.length ≤ off := hk1
  have hk2' : off < 1 + exLenOfLen p.length + p.length := hk2
  have hexl : extLenOf ((writeAt h8 0 (encHeader rbo p.length)).getD 0 0) =
      exLenOfLen p.length := by
    obtain ⟨h0, t, hH, ht⟩ := encHeader_split rbo p.length hp
    rw [hH, getD_writeAt_zero]
    rw [show h0 = (encHeader rbo p.length).getD 0 0 from by rw [hH]; rfl]
    exact extLenOf_encHeader rbo p.length hp
  have hparse : parseLen rbo (exLenOfLen p.length) (writeAt h8 0 (encHeader rbo p.length)) =
      p.length := parseLen_writeAt_encHeader rbo p.length h8 hh8 hp
  rw [readStream]
  rw [rsHdr_done (fuel + 1) _ _ (by dsimp only; omega)]
  simp only [hexl]
  rw [if_pos (by omega : 1 ≤ off)]
  rw [rsExt_done (fuel + 1) _ _ _ (by dsimp only; omega)]
  simp only
  rw [hparse]
  rw [ite_self]
  simp only
  rw [if_neg (by omega : ¬ (2 ^ 56 - 1 < p.length))]
  rw [if_neg (by rcases hlim with h | h <;> omega : ¬ (0 < rl ∧ rl < p.length))]
  rw [if_neg (by omega : ¬ (dst.length < p.length))]
  have hhh : hdrSizeOfLen p.length = 1 + exLenOfLen p.length := rfl
  have hserve : readOnce ((p.drop (off - hdrSizeOfLen p.length) ++ tail, none) :: rest)
      (p.length - (off - (1 + exLenOfLen p.length))) =
      (p.drop (off - hdrSizeOfLen p.length), none, stepAfter tail none rest) := by
    have h := readOnce_serve (p.drop (off - hdrSizeOfLen p.length) ++ tail) rest
        (p.length - (off - (1 + exLenOfLen p.length))) (by omega)
        (by simp only [List.length_append, List.length_drop, hhh]; omega)
    rw [h]
    have htk : (p.drop (off - hdrSizeOfLen p.length)).length =
        p.length - (off - (1 + exLenOfLen p.length)) := by
      simp only [List.length_drop, hhh]
    rw [List.take_left' htk, List.drop_left' htk]
  have hbs : (p.drop (off - hdrSizeOfLen p.length)).length =
      p.length - (off - (1 + exLenOfLen p.length)) := by
    simp only [List.length_drop, hhh]
  rw [rsPay_chunk fuel _ _ _ _ _ _ _ hk2' hk1' hserve hbs]
  simp only
  simp only [Nat.zero_add, List.length_drop, hhh]

/-! ## Claim C10: atomicity of the stream-read short-buffer failure -/

/-- C10 — Atomicity of stream-read failure on a too-small destination: a
`read_one` call whose destination is smaller than the parsed length returns
`(0, short-buffer)` having consumed exactly the header bytes from the
transport (the whole payload is still queued and the destination is
untouched), with the codec keeping the stored header, `offset` equal to the
header size and `length` equal to the parsed length; an immediately following
`read_one` on the same codec with a destination of at least `length` bytes
returns the complete payload, reading only payload bytes from the transport. -/
theorem c10_short_buffer_atomic (fuel : Nat) (fr : Framer) (p dst1 dst2 : List Nat)
    (rest : Script) (hfuel : 2 ≤ fuel)
    (hoff : fr.offset = 0) (hh8 : fr.header.length = 8)
    (hp : p.length ≤ 2 ^ 56 - 1)
    (hlim : fr.readLimit = 0 ∨ p.length ≤ fr.readLimit)
    (hdst1 : dst1.length < p.length) (hdst2 : p.length ≤ dst2.length) :
    readStream fuel fr ((encHeader fr.rbo p.length ++ p, none) :: rest) dst1 =
      some (0, some .shortBuffer,
        ({ fr with header := writeAt fr.header 0 (encHeader fr.rbo p.length),
                   offset := hdrSizeOfLen p.length, length := p.length }),
        (p, none) :: rest, dst1) ∧
    readStream fuel
        ({ fr with header := writeAt fr.header 0 (encHeader fr.rbo p.length),
                   offset := hdrSizeOfLen p.length, length := p.length })
        ((p, none) :: rest) dst2 =
      some (p.length, none,
        ({ fr with header := writeAt fr.header 0 (encHeader fr.rbo p.length),
                   offset := 0, length := 0 }),
        rest, writeAt dst2 0 p) := by
  have hpne : p ≠ [] := by
    intro h
    rw [h] at hdst1
    simp at hdst1
  constructor
  · have h := readStream_shortBuffer fuel fr p.length p dst1 rest hfuel hoff hh8 hp hlim hdst1
    rw [h]
    rw [stepAfter, if_neg hpne]
  · have h := readStream_resume_pay fuel
        ({ fr with header := writeAt fr.header 0 (encHeader fr.rbo p.length),
                   offset := hdrSizeOfLen p.length, length := p.length })
        p [] dst2 rest (hdrSizeOfLen p.length) fr.header hfuel hh8
        (by simp) (by simp) (by simp)
        (le_refl _) (by have := hdst1; omega) hp (by simpa using hlim) hdst2
    simp only [Nat.sub_self, List.drop_zero, List.append_nil, Nat.sub_zero] at h
    rw [h]
    rfl

/-- Witness for C10 at a concrete input: payload `[7, 8, 9]`, big-endian,
destination of 1 byte then of 3 bytes. -/
theorem c10_short_buffer_atomic_witness :
    readStream 8 (mkFramer .big 0) [([3, 7, 8, 9], none)] [0] =
      some (0, some .shortBuffer,
        ({ mkFramer ByteOrd.big 0 with
             header := writeAt (mkFramer ByteOrd.big 0).header 0 (encHeader ByteOrd.big 3),
             offset := hdrSizeOfLen 3, length := 3 }),
        [([7, 8, 9], none)], [0]) ∧
    readStream 8
        ({ mkFramer ByteOrd.big 0 with
             header := writeAt (mkFramer ByteOrd.big 0).header 0 (encHeader ByteOrd.big 3),
             offset := hdrSizeOfLen 3, length := 3 })
        [([7, 8, 9], none)] [0, 0, 0] =
      some (3, none,
        ({ mkFramer ByteOrd.big 0 with
             header := writeAt (mkFramer ByteOrd.big 0).header 0 (encHeader ByteOrd.big 3),
             offset := 0, length := 0 }),
        [], writeAt [0, 0, 0] 0 [7, 8, 9]) :=
  c10_short_buffer_atomic 8 (mkFramer .big 0) [7, 8, 9] [0] [0, 0, 0] []
    (by decide) (by decide) (by decide) (by decide) (Or.inl rfl) (by decide) (by decide)

/-! ## Truncation lemmas: transport error mid-message -/

theorem rsExt_truncX (fuel : Nat) (fr : Framer) (h0 : Nat) (c : List Nat) (rest : Script)
    (E : Nat) (X : IOErr) (hc : c.length < E) :
    rsExt (fuel + 2) ({ fr with header := writeAt fr.header 0 [h0], offset := 1 })
      (stepAfter c none (([], some X) :: rest)) E =
      some (({ fr with header := writeAt fr.header 0 (h0 :: c), offset := 1 + c.length }),
        rest, some (if X = .eof then .unexpectedEOF else X)) := by
  by_cases hc0 : c = []
  · subst hc0
    have hsa : stepAfter [] none (([], some X) :: rest) = ([], some X) :: rest := by
      rw [stepAfter, if_pos rfl]
    rw [hsa]
    have hro : readOnce (([], some X) :: rest)
        (1 + E - ({ fr with header := writeAt fr.header 0 [h0], offset := 1 } : Framer).offset) =
        ([], some X, rest) := readOnce_empty_err (some X) rest _ (by simp)
    by_cases hX : X = .eof
    · subst hX
      rw [show (fuel + 2) = (fuel + 1) + 1 from rfl]
      rw [rsExt_eofMid (fuel + 1) _ _ rest E (by simp at hc ⊢; omega) hro]
      simp
    · rw [show (fuel + 2) = (fuel + 1) + 1 from rfl]
      rw [rsExt_err (fuel + 1) _ _ rest E X (by simp at hc ⊢; omega) hX hro]
      simp [hX]
  · have hsa : stepAfter c none (([], some X) :: rest) = (c, none) :: ([], some X) :: rest := by
      rw [stepAfter, if_neg hc0]
    rw [hsa]
    have hro : readOnce ((c, none) :: ([], some X) :: rest)
        (1 + E - ({ fr with header := writeAt fr.header 0 [h0], offset := 1 } : Framer).offset) =
        (c, none, ([], some X) :: rest) := by
      have : (1 + E - ({ fr with header := writeAt fr.header 0 [h0], offset := 1 } : Framer).offset) = E := by simp
      rw [this]
      exact readOnce_serveAllE c none (([], some X) :: rest) E hc0 (by omega)
    rw [rsExt_step (fuel + 1) _ _ _ E c (by simp; omega) hro]
    have hro2 : readOnce (([], some X) :: rest)
        (1 + E - ({ fr with header := writeAt (writeAt fr.header 0 [h0]) 1 c,
                            offset := 1 + c.length } : Framer).offset) = ([], some X, rest) :=
      readOnce_empty_err (some X) rest _ (by simp)
    have hwchain : writeAt (writeAt fr.header 0 [h0]) 1 c = writeAt fr.header 0 (h0 :: c) := by
      rw [show writeAt (writeAt fr.header 0 [h0]) 1 c =
          writeAt (writeAt fr.header 0 [h0]) [h0].length c from rfl]
      rw [writeAt_chain]
      rfl
    by_cases hX : X = .eof
    · subst hX
      rw [rsExt_eofMid fuel _ _ rest E (by simp; omega) hro2]
      simp [hwchain]
    · rw [rsExt_err fuel _ _ rest E X (by simp; omega) hX hro2]
      simp [hwchain, hX]

theorem rsPay_truncX (fuel : Nat) (fr : Framer) (d p : List Nat) (rest : Script)
    (hdrSize n : Nat) (X : IOErr)
    (hoff : fr.offset = hdrSize) (hd : d.length < fr.length) :
    rsPay (fuel + 2) fr (stepAfter d none (([], some X) :: rest)) p hdrSize n =
      some (n + d.length, some (if X = .eof then .unexpectedEOF else X),
        { fr with offset := fr.offset + d.length }, rest, writeAt p 0 d) := by
  by_cases hd0 : d = []
  · subst hd0
    have hsa : stepAfter [] none (([], some X) :: rest) = ([], some X) :: rest := by
      rw [stepAfter, if_pos rfl]
    rw [hsa]
    have hro : readOnce (([], some X) :: rest) (fr.length - (fr.offset - hdrSize)) =
        ([], some X, rest) := readOnce_empty_err (some X) rest _ (by simp)
    by_cases hX : X = .eof
    · subst hX
      rw [show (fuel + 2) = (fuel + 1) + 1 from rfl]
      rw [rsPay_eofMid (fuel + 1) _ _ rest p hdrSize n (by omega) hro]
      simp [writeAt_nil]
    · rw [show (fuel + 2) = (fuel + 1) + 1 from rfl]
      rw [rsPay_err (fuel + 1) _ _ rest p hdrSize n X (by omega) hX hro]
      simp [writeAt_nil, hX]
  · have hsa : stepAfter d none (([], some X) :: rest) = (d, none) :: ([], some X) :: rest := by
      rw [stepAfter, if_neg hd0]
    rw [hsa]
    have hro : readOnce ((d, none) :: ([], some X) :: rest)
        (fr.length - (fr.offset - hdrSize)) = (d, none, ([], some X) :: rest) := by
      refine readOnce_serveAllE d none (([], some X) :: rest) _ hd0 (by omega)
    rw [rsPay_step (fuel + 1) _ _ _ p hdrSize n d (by omega) hro]
    have hro2 : readOnce (([], some X) :: rest)
        (({ fr with offset := fr.offset + d.length } : Framer).length -
          (({ fr with offset := fr.offset + d.length } : Framer).offset - hdrSize)) =
        ([], some X, rest) := readOnce_empty_err (some X) rest _ (by simp)
    have hidx : fr.offset - hdrSize = 0 := by omega
    by_cases hX : X = .eof
    · subst hX
      rw [rsPay_eofMid fuel _ _ rest _ hdrSize _ (by simp; omega) hro2]
      rw [hidx]
      simp
    · rw [rsPay_err fuel _ _ rest _ hdrSize _ X (by simp; omega) hX hro2]
      rw [hidx]
      simp [hX]

/-- Truncated transport mid-message: the source serves the first `k` bytes of
a framed message (`0 < k <` wire size) and then reports error `X` with no
data.  `read_one` returns the payload bytes delivered so far (zero while still
inside the header), maps a bare `EOF` to `unexpected-EOF` because the message
is incomplete, passes any other error through, and leaves the in-progress
state (`offset = k`, stored header prefix, parsed length once the header is
complete) in place rather than resetting it. -/
theorem readStream_truncX (fuel : Nat) (fr : Framer) (p dst : List Nat) (rest : Script)
    (k : Nat) (X : IOErr)
    (hfuel : 3 ≤ fuel)
    (hoff : fr.offset = 0) (hh8 : fr.header.length = 8)
    (hp : p.length ≤ 2 ^ 56 - 1)
    (hlim : fr.readLimit = 0 ∨ p.length ≤ fr.readLimit)
    (hdst : p.length ≤ dst.length)
    (hk0 : 0 < k) (hkw : k < hdrSizeOfLen p.length + p.length) :
    readStream fuel fr
        (((encHeader fr.rbo p.length ++ p).take k, none) :: ([], some X) :: rest) dst =
      some (k - hdrSizeOfLen p.length, some (if X = .eof then .unexpectedEOF else X),
        ({ fr with header := writeAt fr.header 0 ((encHeader fr.rbo p.length).take k),
                   offset := k,
                   length := if hdrSizeOfLen p.length ≤ k then p.length else fr.length }),
        rest, writeAt dst 0 (p.take (k - hdrSizeOfLen p.length))) := by
  obtain ⟨fuel, rfl⟩ : ∃ f, fuel = f + 3 := ⟨fuel - 3, by omega⟩
  obtain ⟨h0, t, hH, ht⟩ := encHeader_split fr.rbo p.length hp
  obtain ⟨k', rfl⟩ : ∃ j, k = j + 1 := ⟨k - 1, by omega⟩
  have hhdr : hdrSizeOfLen p.length = 1 + exLenOfLen p.length := rfl
  have hwk : (encHeader fr.rbo p.length ++ p).take (k' + 1) = h0 :: (t ++ p).take k' := by
    rw [hH]
    rfl
  have hro1 : readOnce ((h0 :: (t ++ p).take k', none) :: ([], some X) :: rest) 1 =
      ([h0], none, stepAfter ((t ++ p).take k') none (([], some X) :: rest)) := by
    have h := readOnce_serve (h0 :: (t ++ p).take k') (([], some X) :: rest) 1
      (by omega) (by simp)
    simpa using h
  rw [hwk]
  have hstep1 := rsHdr_byte (fuel + 1) fr _ _ h0 hoff hro1
  have hget : (writeAt fr.header 0 [h0]).getD 0 0 = h0 := getD_writeAt_zero fr.header [] h0
  have hh0 : h0 = (encHeader fr.rbo p.length).getD 0 0 := by rw [hH]; rfl
  have hexl : extLenOf h0 = exLenOfLen p.length := by
    rw [hh0]
    exact extLenOf_encHeader fr.rbo p.length hp
  by_cases hcase : k' < exLenOfLen p.length
  · -- error strictly inside the header
    have hc : (t ++ p).take k' = t.take k' := by
      rw [List.take_append_eq_append_take]
      rw [show k' - t.length = 0 from by omega]
      simp
    have hext := rsExt_truncX (fuel + 1) fr h0 (t.take k') rest (exLenOfLen p.length) X
      (by simp; omega)
    rw [readStream]
    rw [hstep1]
    simp only [hget, hexl]
    rw [if_pos (le_refl 1)]
    rw [hc, hext]
    simp only
    have hn : k' + 1 - hdrSizeOfLen p.length = 0 := by omega
    have hlen : ¬ (hdrSizeOfLen p.length ≤ k' + 1) := by omega
    rw [hn, if_neg hlen]
    have htk : (encHeader fr.rbo p.length).take (k' + 1) = h0 :: t.take k' := by
      rw [hH]
      rfl
    rw [htk]
    simp [writeAt_nil]
    omega
  · -- header complete: error inside (or at the start of) the payload
    have hc : (t ++ p).take k' = t ++ p.take (k' - exLenOfLen p.length) := by
      rw [List.take_append_eq_append_take]
      rw [List.take_of_length_le (by omega), ht]
    have hext := rsExt_consume (fuel + 1) fr h0 t (p.take (k' - exLenOfLen p.length))
      (([], some X) :: rest) (exLenOfLen p.length) ht
    have hparse' : parseLen fr.rbo (exLenOfLen p.length) (writeAt fr.header 0 (h0 :: t)) =
        p.length := by
      rw [← hH]
      exact parseLen_writeAt_encHeader fr.rbo p.length fr.header hh8 hp
    have hc1 : ¬ (2 ^ 56 - 1 < p.length) := by omega
    have hc2 : ¬ (0 < fr.readLimit ∧ fr.readLimit < p.length) := by
      rcases hlim with h | h <;> omega
    have hc3 : ¬ (dst.length < p.length) := by omega
    have hulen : (p.take (k' - exLenOfLen p.length)).length = k' - exLenOfLen p.length := by
      rw [List.length_take]
      omega
    have hpay := rsPay_truncX (fuel + 1)
      ({ fr with header := writeAt fr.header 0 (h0 :: t), length := p.length,
                 offset := 1 + exLenOfLen p.length })
      (p.take (k' - exLenOfLen p.length)) dst rest (1 + exLenOfLen p.length) 0 X
      (by simp) (by simp [hulen]; omega)
    rw [readStream]
    rw [hstep1]
    simp only [hget, hexl]
    rw [if_pos (le_refl 1)]
    rw [hc, hext]
    simp only
    rw [if_true]
    dsimp only
    rw [hparse']
    rw [if_neg hc1]
    rw [if_neg hc2]
    rw [if_neg hc3]
    rw [hpay]
    simp only [hulen]
    have hlen : hdrSizeOfLen p.length ≤ k' + 1 := by omega
    rw [if_pos hlen]
    have htk : (encHeader fr.rbo p.length).take (k' + 1) = h0 :: t := by
      rw [← hH]
      exact List.take_of_length_le (by rw [hH]; simp; omega)
    rw [htk]
    have hn : k' + 1 - hdrSizeOfLen p.length = k' - exLenOfLen p.length := by omega
    rw [hn]
    have hoffn : 1 + exLenOfLen p.length + (k' - exLenOfLen p.length) = k' + 1 := by omega
    simp [hoffn]

theorem rsExt_consumeE (fuel : Nat) (fr : Framer) (h0 : Nat) (t u : List Nat) (rest : Script)
    (E : Nat) (e0 : Option IOErr) (ht : t.length = E) (hu : u ≠ []) :
    rsExt (fuel + 2) ({ fr with header := writeAt fr.header 0 [h0], offset := 1 })
      ((t ++ u, e0) :: rest) E =
      some (({ fr with header := writeAt fr.header 0 (h0 :: t), offset := 1 + E }),
        (u, e0) :: rest, none) := by
  by_cases hex0 : E = 0
  · have ht0 : t = [] := List.length_eq_zero.mp (by omega)
    subst ht0
    subst hex0
    rw [show (fuel + 2) = (fuel + 1) + 1 from rfl]
    rw [rsExt_done (fuel + 1) _ _ 0 (by simp)]
    simp
  · have hupos : 0 < u.length := List.length_pos.mpr hu
    have hro : readOnce ((t ++ u, e0) :: rest)
        (1 + E - ({ fr with header := writeAt fr.header 0 [h0], offset := 1 } : Framer).offset) =
        (t, none, (u, e0) :: rest) := by
      have hcap : (1 + E - ({ fr with header := writeAt fr.header 0 [h0], offset := 1 } : Framer).offset) = E := by simp
      rw [hcap]
      have h := readOnce_take (t ++ u) e0 rest E (by omega) (by simp [ht]; omega)
      rw [h, ← ht, List.take_left, List.drop_left]
    rw [rsExt_step (fuel + 1) _ _ _ E t (by simp; omega) hro]
    rw [rsExt_done fuel _ _ E (by simp [ht])]
    have hwchain : writeAt (writeAt fr.header 0 [h0]) 1 t = writeAt fr.header 0 (h0 :: t) := by
      rw [show writeAt (writeAt fr.header 0 [h0]) 1 t =
          writeAt (writeAt fr.header 0 [h0]) [h0].length t from rfl]
      rw [writeAt_chain]
      rfl
    simp [hwchain, ht]

/-- A framed message delivered together with the terminal `EOF` on the very
read that supplies its last byte: the message completes cleanly (`n = len(p)`,
no error) and the `EOF` is absorbed. -/
theorem readStream_msg_okE (fuel : Nat) (fr : Framer) (p dst : List Nat) (rest : Script)
    (hfuel : 2 ≤ fuel)
    (hoff : fr.offset = 0) (hh8 : fr.header.length = 8)
    (hp : p.length ≤ 2 ^ 56 - 1)
    (hlim : fr.readLimit = 0 ∨ p.length ≤ fr.readLimit)
    (hdst : p.length ≤ dst.length) (hppos : 0 < p.length) :
    readStream fuel fr ((encWire fr.rbo p, some .eof) :: rest) dst =
      some (p.length, none,
        ({ fr with offset := 0, length := 0,
                   header := writeAt fr.header 0 (encHeader fr.rbo p.length) }),
        rest, writeAt dst 0 p) := by
  obtain ⟨fuel, rfl⟩ : ∃ f, fuel = f + 2 := ⟨fuel - 2, by omega⟩
  obtain ⟨h0, t, hH, ht⟩ := encHeader_split fr.rbo p.length hp
  have hpne : p ≠ [] := by
    intro h
    rw [h] at hppos
    simp at hppos
  have hwire : encWire fr.rbo p = h0 :: (t ++ p) := by
    rw [encWire, hH]
    simp
  have hro1 : readOnce ((encWire fr.rbo p, some .eof) :: rest) 1 =
      ([h0], none, (t ++ p, some .eof) :: rest) := by
    rw [hwire]
    have h := readOnce_take (h0 :: (t ++ p)) (some .eof) rest 1 (by omega)
      (by simp; omega)
    simpa using h
  have hstep1 := rsHdr_byte fuel fr _ _ h0 hoff hro1
  have hget : (writeAt fr.header 0 [h0]).getD 0 0 = h0 := getD_writeAt_zero fr.header [] h0
  have hh0 : h0 = (encHeader fr.rbo p.length).getD 0 0 := by rw [hH]; rfl
  have hexl : extLenOf h0 = exLenOfLen p.length := by
    rw [hh0]
    exact extLenOf_encHeader fr.rbo p.length hp
  have hext := rsExt_consumeE fuel fr h0 t p rest (exLenOfLen p.length) (some .eof) ht hpne
  have hparse' : parseLen fr.rbo (exLenOfLen p.length) (writeAt fr.header 0 (h0 :: t)) =
      p.length := by
    rw [← hH]
    exact parseLen_writeAt_encHeader fr.rbo p.length fr.header hh8 hp
  have hc1 : ¬ (2 ^ 56 - 1 < p.length) := by omega
  have hc2 : ¬ (0 < fr.readLimit ∧ fr.readLimit < p.length) := by
    rcases hlim with h | h <;> omega
  have hc3 : ¬ (dst.length < p.length) := by omega
  have hro3 : readOnce ((p, some .eof) :: rest)
      (({ fr with header := writeAt fr.header 0 (h0 :: t), length := p.length,
                  offset := 1 + exLenOfLen p.length } : Framer).length -
        (({ fr with header := writeAt fr.header 0 (h0 :: t), length := p.length,
                    offset := 1 + exLenOfLen p.length } : Framer).offset -
          (1 + exLenOfLen p.length))) = (p, some .eof, rest) := by
    have hcap : (({ fr with header := writeAt fr.header 0 (h0 :: t), length := p.length,
                            offset := 1 + exLenOfLen p.length } : Framer).length -
        (({ fr with header := writeAt fr.header 0 (h0 :: t), length := p.length,
                    offset := 1 + exLenOfLen p.length } : Framer).offset -
          (1 + exLenOfLen p.length))) = p.length := by simp
    rw [hcap]
    exact readOnce_serveAllE p (some .eof) rest p.length hpne (le_refl _)
  have hpay := rsPay_chunk_eof (fuel + 1)
    ({ fr with header := writeAt fr.header 0 (h0 :: t), length := p.length,
               offset := 1 + exLenOfLen p.length })
    _ rest dst (1 + exLenOfLen p.length) 0 p (by simp; omega) (by simp) hro3 (by simp)
  rw [readStream]
  rw [hstep1]
  simp only [hget, hexl]
  rw [if_pos (le_refl 1)]
  rw [hext]
  simp only
  rw [if_true]
  dsimp only
  rw [hparse']
  rw [if_neg hc1]
  rw [if_neg hc2]
  rw [if_neg hc3]
  rw [hpay]
  dsimp only
  rw [← hH]
  simp

/-! ## Claim C3: EOF taxonomy of the stream read state machine -/

/-- C3 — EOF taxonomy: (a) transport EOF with `offset = 0` makes `read_one`
return `(0, end-of-stream)` with the codec untouched; (b) EOF after only `k`
wire bytes (`0 < k <` wire size) of a message makes `read_one` return
`unexpected-EOF`; (c) a transport read that delivers the final payload byte
together with EOF completes the message cleanly with `(len(p), ok)` — the
terminal EOF is absorbed. -/
theorem c3_eof_taxonomy (fuel : Nat) (fr : Framer) (p dst : List Nat) (rest : Script)
    (k : Nat)
    (hfuel : 3 ≤ fuel)
    (hoff : fr.offset = 0) (hh8 : fr.header.length = 8)
    (hp : p.length ≤ 2 ^ 56 - 1)
    (hlim : fr.readLimit = 0 ∨ p.length ≤ fr.readLimit)
    (hdst : p.length ≤ dst.length)
    (hk0 : 0 < k) (hkw : k < hdrSizeOfLen p.length + p.length)
    (hppos : 0 < p.length) :
    readStream fuel fr (([], some .eof) :: rest) dst = some (0, some .eof, fr, rest, dst) ∧
    readStream fuel fr
        (((encHeader fr.rbo p.length ++ p).take k, none) :: ([], some .eof) :: rest) dst =
      some (k - hdrSizeOfLen p.length, some .unexpectedEOF,
        ({ fr with header := writeAt fr.header 0 ((encHeader fr.rbo p.length).take k),
                   offset := k,
                   length := if hdrSizeOfLen p.length ≤ k then p.length else fr.length }),
        rest, writeAt dst 0 (p.take (k - hdrSizeOfLen p.length))) ∧
    readStream fuel fr ((encWire fr.rbo p, some .eof) :: rest) dst =
      some (p.length, none,
        ({ fr with offset := 0, length := 0,
                   header := writeAt fr.header 0 (encHeader fr.rbo p.length) }),
        rest, writeAt dst 0 p) := by
  refine ⟨?_, ?_, ?_⟩
  · obtain ⟨fuel, rfl⟩ : ∃ f, fuel = f + 3 := ⟨fuel - 3, by omega⟩
    have hro : readOnce (([], some .eof) :: rest) 1 = ([], some .eof, rest) :=
      readOnce_empty_err (some .eof) rest 1 (by simp)
    rw [readStream]
    rw [rsHdr_eof0 (fuel + 2) fr _ rest hoff hro]
  · have h := readStream_truncX fuel fr p dst rest k .eof hfuel hoff hh8 hp hlim hdst hk0 hkw
    rw [if_pos rfl] at h
    exact h
  · exact readStream_msg_okE fuel fr p dst rest (by omega) hoff hh8 hp hlim hdst hppos

/-- Witness for C3 at concrete inputs: payload `[10, 20]`, big-endian wire
`[2, 10, 20]`, EOF split after `k = 2` wire bytes. -/
theorem c3_eof_taxonomy_witness :
    (readStream 8 (mkFramer .big 0) [([], some .eof)] [0, 0] =
        some (0, some .eof, mkFramer .big 0, [], [0, 0])) ∧
    (readStream 8 (mkFramer .big 0) [([2, 10], none), ([], some .eof)] [0, 0] =
        some (1, some .unexpectedEOF,
          ({ mkFramer ByteOrd.big 0 with
               header := writeAt (mkFramer ByteOrd.big 0).header 0 [2],
               offset := 2, length := 2 }),
          [], [10, 0])) ∧
    (readStream 8 (mkFramer .big 0) [([2, 10, 20], some .eof)] [0, 0] =
        some (2, none,
          ({ mkFramer ByteOrd.big 0 with
               offset := 0, length := 0,
               header := writeAt (mkFramer ByteOrd.big 0).header 0 [2] }),
          [], [10, 20])) :=
  c3_eof_taxonomy 8 (mkFramer .big 0) [10, 20] [0, 0] [] 2
    (by decide) rfl (by decide) (by decide) (Or.inl rfl) (by decide)
    (by decide) (by decide) (by decide)

/-- Resumed `read_one` of a message interrupted inside the header
(`1 ≤ offset <` header size): the call reads the remaining header bytes,
parses the length, reads the whole payload and completes the message. -/
theorem readStream_resume_hdr (fuel : Nat) (fr : Framer) (p tail dst : List Nat)
    (rest : Script) (k : Nat) (h8 : List Nat)
    (hfuel : 2 ≤ fuel) (hh8 : h8.length = 8)
    (hhdr : fr.header = writeAt h8 0 ((encHeader fr.rbo p.length).take k))
    (hoff : fr.offset = k)
    (hk1 : 1 ≤ k) (hk2 : k < hdrSizeOfLen p.length)
    (hp : p.length ≤ 2 ^ 56 - 1)
    (hlim : fr.readLimit = 0 ∨ p.length ≤ fr.readLimit)
    (hdst : p.length ≤ dst.length) :
    readStream fuel fr
        (((encHeader fr.rbo p.length).drop k ++ (p ++ tail), none) :: rest) dst =
      some (p.length, none,
        ({ fr with header := writeAt h8 0 (encHeader fr.rbo p.length),
                   offset := 0, length := 0 }),
        stepAfter tail none rest, writeAt dst 0 p) := by
  obtain ⟨fuel, rfl⟩ : ∃ f, fuel = f + 2 := ⟨fuel - 2, by omega⟩
  obtain ⟨h0, t, hH, ht⟩ := encHeader_split fr.rbo p.length hp
  obtain ⟨rbo, wbo, rpr, wpr, rl, hd, ln, off, rb, wo, wl, wb⟩ := fr
  dsimp only at hhdr hoff hlim hH ⊢
  subst hhdr
  subst hoff
  have hhdrsz : hdrSizeOfLen p.length = 1 + exLenOfLen p.length := rfl
  have hE1 : off - 1 < exLenOfLen p.length := by omega
  have htk : (encHeader rbo p.length).take off = h0 :: t.take (off - 1) := by
    rw [hH]
    obtain ⟨j, rfl⟩ : ∃ j, off = j + 1 := ⟨off - 1, by omega⟩
    simp
  have hdk : (encHeader rbo p.length).drop off = t.drop (off - 1) := by
    rw [hH]
    obtain ⟨j, rfl⟩ : ∃ j, off = j + 1 := ⟨off - 1, by omega⟩
    simp
  have hh0 : h0 = (encHeader rbo p.length).getD 0 0 := by rw [hH]; rfl
  have hexl : extLenOf ((writeAt h8 0 ((encHeader rbo p.length).take off)).getD 0 0) =
      exLenOfLen p.length := by
    rw [htk, getD_writeAt_zero, hh0]
    exact extLenOf_encHeader rbo p.length hp
  have hdlen : (t.drop (off - 1)).length = 1 + exLenOfLen p.length - off := by
    rw [List.length_drop, ht]
    omega
  have hro : readOnce ((t.drop (off - 1) ++ (p ++ tail), none) :: rest)
      (1 + exLenOfLen p.length - off) =
      (t.drop (off - 1), none, stepAfter (p ++ tail) none rest) := by
    have h := readOnce_serve (t.drop (off - 1) ++ (p ++ tail)) rest
      (1 + exLenOfLen p.length - off) (by omega)
      (by rw [List.length_append, hdlen]; omega)
    rw [h, List.take_left' hdlen, List.drop_left' hdlen]
  have hlen2 : (h0 :: t.take (off - 1)).length = off := by
    simp [List.length_take]
    omega
  have hchain : writeAt (writeAt h8 0 ((encHeader rbo p.length).take off)) off
      (t.drop (off - 1)) = writeAt h8 0 (encHeader rbo p.length) := by
    rw [htk]
    nth_rewrite 2 [← hlen2]
    rw [writeAt_chain]
    rw [hH]
    rw [List.cons_append, List.take_append_drop]
  have hparse : parseLen rbo (exLenOfLen p.length) (writeAt h8 0 (encHeader rbo p.length)) =
      p.length := parseLen_writeAt_encHeader rbo p.length h8 hh8 hp
  have hc1 : ¬ (2 ^ 56 - 1 < p.length) := by omega
  have hc2 : ¬ (0 < rl ∧ rl < p.length) := by rcases hlim with h | h <;> omega
  have hc3 : ¬ (dst.length < p.length) := by omega
  have hpay : rsPay (fuel + 2)
      ({ rbo := rbo, wbo := wbo, rpr := rpr, wpr := wpr, readLimit := rl,
         header := writeAt h8 0 (encHeader rbo p.length), length := p.length,
         offset := 1 + exLenOfLen p.length, rbuf := rb, wtOff := wo, wtLen := wl, wbuf := wb })
      (stepAfter (p ++ tail) none rest) dst (1 + exLenOfLen p.length) 0 =
      some (p.length, none,
        ({ rbo := rbo, wbo := wbo, rpr := rpr, wpr := wpr, readLimit := rl,
           header := writeAt h8 0 (encHeader rbo p.length), length := p.length,
           offset := 1 + exLenOfLen p.length + p.length, rbuf := rb, wtOff := wo,
           wtLen := wl, wbuf := wb }),
        stepAfter tail none rest, writeAt dst 0 p) := by
    by_cases hp0 : p = []
    · subst hp0
      rw [show (fuel + 2) = (fuel + 1) + 1 from rfl]
      rw [rsPay_done (fuel + 1) _ _ _ _ _ (by simp)]
      simp [writeAt_nil]
    · have hne : p ++ tail ≠ [] := by simp [hp0]
      rw [stepAfter, if_neg hne]
      have hplen : 0 < p.length := List.length_pos.mpr hp0
      have hro3 : readOnce ((p ++ tail, none) :: rest)
          (p.length - (1 + exLenOfLen p.length - (1 + exLenOfLen p.length))) =
          (p, none, stepAfter tail none rest) := by
        rw [show p.length - (1 + exLenOfLen p.length - (1 + exLenOfLen p.length)) = p.length
          from by omega]
        rw [readOnce_serve (p ++ tail) rest p.length hplen (by simp)]
        rw [List.take_left, List.drop_left]
      rw [rsPay_chunk fuel _ _ _ dst _ 0 p (by simp; omega) (by simp) hro3 (by simp)]
      simp
  have hro' : readOnce ((t.drop (off - 1) ++ (p ++ tail), none) :: rest)
      (1 + exLenOfLen p.length -
        ({ rbo := rbo, wbo := wbo, rpr := rpr, wpr := wpr, readLimit := rl,
           header := writeAt h8 0 ((encHeader rbo p.length).take off), length := ln,
           offset := off, rbuf := rb, wtOff := wo, wtLen := wl, wbuf := wb } : Framer).offset) =
      (t.drop (off - 1), none, stepAfter (p ++ tail) none rest) := hro
  have hext := rsExt_chunk fuel
    ({ rbo := rbo, wbo := wbo, rpr := rpr, wpr := wpr, readLimit := rl,
       header := writeAt h8 0 ((encHeader rbo p.length).take off), length := ln,
       offset := off, rbuf := rb, wtOff := wo, wtLen := wl, wbuf := wb })
    ((t.drop (off - 1) ++ (p ++ tail), none) :: rest) (stepAfter (p ++ tail) none rest)
    (exLenOfLen p.length) (t.drop (off - 1))
    (by dsimp only; omega) hro' (by dsimp only; rw [hdlen])
  rw [hdk]
  rw [readStream]
  rw [rsHdr_done (fuel + 1) _ _ (by dsimp only; omega)]
  simp only [hexl]
  rw [if_pos (by omega : 1 ≤ off)]
  rw [hext]
  simp only
  rw [hchain]
  simp only [if_true]
  rw [hparse]
  rw [if_neg hc1]
  rw [if_neg hc2]
  rw [if_neg hc3]
  rw [hpay]

/-! ## Claim C4: stream-read resumption across a would-block split -/

/-- C4 (amended) — Resumption correctness of stream reads: splitting a valid
single-message wire at any byte position `k`, serving the first `k` bytes
followed by a would-block signal and the remainder on the next call, the
first `read_one` returns the payload bytes delivered so far (zero while still
inside the header) with the would-block signal and the in-progress state
preserved; the second `read_one` on the same codec completes the message,
returning the remaining payload bytes.  The two calls together return exactly
`len(p)` bytes and leave exactly the payload `p` in the destination — the
same as a single uninterrupted `read_one` (whose count, however, is split
between the two calls, not repeated in full by the second call). -/
theorem c4_split_resume (fuel : Nat) (fr : Framer) (p dst : List Nat) (rest : Script)
    (k : Nat)
    (hfuel : 3 ≤ fuel)
    (hoff : fr.offset = 0) (hh8 : fr.header.length = 8)
    (hp : p.length ≤ 2 ^ 56 - 1)
    (hlim : fr.readLimit = 0 ∨ p.length ≤ fr.readLimit)
    (hdst : p.length ≤ dst.length)
    (hk0 : 0 < k) (hkw : k < hdrSizeOfLen p.length + p.length) :
    readStream fuel fr
        (((encHeader fr.rbo p.length ++ p).take k, none) :: ([], some .wouldBlock) ::
          ((encHeader fr.rbo p.length ++ p).drop k, none) :: rest) dst =
      some (k - hdrSizeOfLen p.length, some .wouldBlock,
        ({ fr with header := writeAt fr.header 0 ((encHeader fr.rbo p.length).take k),
                   offset := k,
                   length := if hdrSizeOfLen p.length ≤ k then p.length else fr.length }),
        ((encHeader fr.rbo p.length ++ p).drop k, none) :: rest,
        writeAt dst 0 (p.take (k - hdrSizeOfLen p.length))) ∧
    readStream fuel
        ({ fr with header := writeAt fr.header 0 ((encHeader fr.rbo p.length).take k),
                   offset := k,
                   length := if hdrSizeOfLen p.length ≤ k then p.length else fr.length })
        (((encHeader fr.rbo p.length ++ p).drop k, none) :: rest)
        (writeAt dst 0 (p.take (k - hdrSizeOfLen p.length))) =
      some (p.length - (k - hdrSizeOfLen p.length), none,
        ({ fr with header := writeAt fr.header 0 (encHeader fr.rbo p.length),
                   offset := 0, length := 0 }),
        rest, writeAt dst 0 p) ∧
    (k - hdrSizeOfLen p.length) + (p.length - (k - hdrSizeOfLen p.length)) = p.length := by
  have hhdrsz : hdrSizeOfLen p.length = 1 + exLenOfLen p.length := rfl
  have hHlen : (encHeader fr.rbo p.length).length = hdrSizeOfLen p.length :=
    encHeader_length fr.rbo p.length hp
  refine ⟨?_, ?_, by omega⟩
  · have hA := readStream_truncX fuel fr p dst
      (((encHeader fr.rbo p.length ++ p).drop k, none) :: rest) k .wouldBlock
      hfuel hoff hh8 hp hlim hdst hk0 hkw
    rw [if_neg (by decide : ¬ (IOErr.wouldBlock = IOErr.eof))] at hA
    exact hA
  · by_cases hreg : k < hdrSizeOfLen p.length
    · have hk0' : k - hdrSizeOfLen p.length = 0 := by omega
      rw [hk0']
      rw [if_neg (by omega : ¬ hdrSizeOfLen p.length ≤ k)]
      simp only [List.take_zero, writeAt_nil]
      have hdrop : (encHeader fr.rbo p.length ++ p).drop k =
          (encHeader fr.rbo p.length).drop k ++ (p ++ []) := by
        rw [List.drop_append_eq_append_drop]
        rw [show k - (encHeader fr.rbo p.length).length = 0 from by omega]
        simp
      have h2 := readStream_resume_hdr fuel
        ({ fr with header := writeAt fr.header 0 ((encHeader fr.rbo p.length).take k),
                   offset := k, length := fr.length })
        p [] dst rest k fr.header (by omega) hh8 rfl rfl hk0 hreg hp hlim hdst
      simp only at h2
      rw [hdrop, h2]
      simp [stepAfter]
    · have hreg' : hdrSizeOfLen p.length ≤ k := by omega
      rw [if_pos hreg']
      have htkH : (encHeader fr.rbo p.length).take k = encHeader fr.rbo p.length :=
        List.take_of_length_le (by omega)
      rw [htkH]
      have hHd : (encHeader fr.rbo p.length).drop k = [] :=
        List.drop_eq_nil_of_le (by omega)
      have hdrop : (encHeader fr.rbo p.length ++ p).drop k =
          p.drop (k - hdrSizeOfLen p.length) ++ [] := by
        rw [List.drop_append_eq_append_drop, hHd, hHlen, List.nil_append, List.append_nil]
      have hdst1 : p.length ≤ (writeAt dst 0 (p.take (k - hdrSizeOfLen p.length))).length := by
        rw [length_writeAt dst _ 0 (by simp [List.length_take]; omega)]
        exact hdst
      have h2 := readStream_resume_pay fuel
        ({ fr with header := writeAt fr.header 0 (encHeader fr.rbo p.length),
                   offset := k, length := p.length })
        p [] (writeAt dst 0 (p.take (k - hdrSizeOfLen p.length))) rest k fr.header
        (by omega) hh8 rfl rfl rfl hreg' (by omega) hp hlim hdst1
      simp only at h2
      rw [hdrop, h2]
      have hlen3 : (p.take (k - hdrSizeOfLen p.length)).length = k - hdrSizeOfLen p.length := by
        simp [List.length_take]
        omega
      have hfinal : writeAt (writeAt dst 0 (p.take (k - hdrSizeOfLen p.length)))
          (k - hdrSizeOfLen p.length) (p.drop (k - hdrSizeOfLen p.length)) =
          writeAt dst 0 p := by
        nth_rewrite 2 [← hlen3]
        rw [writeAt_chain, List.take_append_drop]
      rw [hfinal]
      simp [stepAfter]

/-- Witness for C4 at a concrete input: payload `[10, 20]`, big-endian wire
`[2, 10, 20]` split at `k = 2`. -/
theorem c4_split_resume_witness :
    (readStream 8 (mkFramer .big 0)
        [([2, 10], none), ([], some .wouldBlock), ([20], none)] [0, 0] =
      some (1, some .wouldBlock,
        ({ mkFramer ByteOrd.big 0 with
             header := writeAt (mkFramer ByteOrd.big 0).header 0 [2],
             offset := 2, length := 2 }),
        [([20], none)], [10, 0])) ∧
    (readStream 8
        ({ mkFramer ByteOrd.big 0 with
             header := writeAt (mkFramer ByteOrd.big 0).header 0 [2],
             offset := 2, length := 2 })
        [([20], none)] [10, 0] =
      some (1, none,
        ({ mkFramer ByteOrd.big 0 with
             header := writeAt (mkFramer ByteOrd.big 0).header 0 [2],
             offset := 0, length := 0 }),
        [], [10, 20])) ∧
    (1 : Nat) + 1 = 2 :=
  c4_split_resume 8 (mkFramer .big 0) [10, 20] [0, 0] [] 2
    (by decide) rfl (by decide) (by decide) (Or.inl rfl) (by decide) (by decide) (by decide)

/-- Counterexample to C4 as literally stated: over the wire `[2, 10, 20]`
split at `k = 2`, the resumed second `read_one` returns byte count `1`
(the remainder), not the byte count `2` of a single uninterrupted
`read_one` over the whole wire. -/
theorem c4_split_counterexample :
    (readStream 8 (mkFramer .big 0) [([2, 10, 20], none)] [0, 0]).map
        (fun r => r.1) = some 2 ∧
    (readStream 8 (mkFramer .big 0)
        [([2, 10], none), ([], some .wouldBlock), ([20], none)] [0, 0] =
      some (1, some .wouldBlock,
        ({ mkFramer ByteOrd.big 0 with
             header := writeAt (mkFramer ByteOrd.big 0).header 0 [2],
             offset := 2, length := 2 }),
        [([20], none)], [10, 0])) ∧
    (readStream 8
        ({ mkFramer ByteOrd.big 0 with
             header := writeAt (mkFramer ByteOrd.big 0).header 0 [2],
             offset := 2, length := 2 })
        [([20], none)] [10, 0]).map (fun r => (r.1, r.2.1)) = some (1, none) ∧
    (1 : Nat) ≠ 2 :=
  ⟨rfl, rfl, rfl, by decide⟩

/-! ## Claim C5: write-side model of a sink that blocks mid-write -/

/-- State of `wouldBlockMidWriteWriter` from the repo's tests: a sink that
accepts bytes until a cumulative `limit`, then reports would-block once, then
accepts everything. -/
structure MidBlockSt where
  buf : List Nat
  limit : Nat
  written : Nat
  blocked : Bool

/-- `wouldBlockMidWriteWriter.Write`. -/
def midBlockW : WriterM MidBlockSt :=
  ⟨fun w p =>
    if w.blocked = false ∧ w.limit < w.written + p.length then
      let canWrite := w.limit - w.written
      if 0 < canWrite then
        (canWrite, some .wouldBlock,
          { w with buf := w.buf ++ p.take canWrite, written := w.written + canWrite,
                   blocked := true })
      else (0, some .wouldBlock, { w with blocked := true })
    else (p.length, none, { w with buf := w.buf ++ p, written := w.written + p.length })⟩

theorem midBlockW_write_accept (w : MidBlockSt) (q : List Nat)
    (h : w.blocked = true ∨ w.written + q.length ≤ w.limit) :
    midBlockW.write w q =
      (q.length, none, { w with buf := w.buf ++ q, written := w.written + q.length }) := by
  have hni : ¬ (w.blocked = false ∧ w.limit < w.written + q.length) := by
    rintro ⟨h1, h2⟩
    rcases h with h | h
    · rw [h] at h1
      exact Bool.noConfusion h1
    · omega
  simp only [midBlockW]
  rw [if_neg hni]

theorem midBlockW_write_block (w : MidBlockSt) (q : List Nat)
    (hb : w.blocked = false) (hover : w.limit < w.written + q.length) :
    midBlockW.write w q =
      (w.limit - w.written, some .wouldBlock,
        { w with buf := w.buf ++ q.take (w.limit - w.written),
                 written := w.written + (w.limit - w.written), blocked := true }) := by
  simp only [midBlockW]
  rw [if_pos ⟨hb, hover⟩]
  by_cases hcan : 0 < w.limit - w.written
  · rw [if_pos hcan]
  · rw [if_neg hcan]
    have h0 : w.limit - w.written = 0 := by omega
    rw [h0]
    simp

theorem midBlock_accept (w : MidBlockSt) (q : List Nat)
    (h : w.blocked = true ∨ w.written + q.length ≤ w.limit) :
    writeOnce midBlockW w q =
      (q.length, none, { w with buf := w.buf ++ q, written := w.written + q.length }) := by
  rw [writeOnce, midBlockW_write_accept w q h]
  dsimp only
  rw [if_neg (fun hc => hc.1 hc.2.1)]

theorem midBlock_block (w : MidBlockSt) (q : List Nat)
    (hb : w.blocked = false) (hover : w.limit < w.written + q.length) :
    writeOnce midBlockW w q =
      (w.limit - w.written, some .wouldBlock,
        { w with buf := w.buf ++ q.take (w.limit - w.written),
                 written := w.written + (w.limit - w.written), blocked := true }) := by
  rw [writeOnce, midBlockW_write_block w q hb hover]
  dsimp only
  rw [if_neg (fun hc => Option.noConfusion hc.2.2)]

/-- First `write_one` against a sink that blocks after `m` cumulative bytes
(`0 < m <` wire size): the call emits the first `m` wire bytes, returns the
payload bytes among them with the would-block signal, and leaves the
in-flight state (`offset = m`, fixed `length`, built header) in place. -/
theorem writeStream_midBlock_first (fuel : Nat) (fr : Framer) (p buf0 : List Nat) (m : Nat)
    (hfuel : 2 ≤ fuel)
    (hoff : fr.offset = 0) (hh8 : fr.header.length = 8)
    (hp : p.length ≤ 2 ^ 56 - 1)
    (hm0 : 0 < m) (hmw : m < hdrSizeOfLen p.length + p.length) :
    writeStream midBlockW fuel fr ⟨buf0, m, 0, false⟩ p =
      some (m - hdrSizeOfLen p.length, some .wouldBlock,
        ({ fr with header := buildHeader fr.wbo p.length fr.header,
                   length := p.length, offset := m }),
        ⟨buf0 ++ (encWire fr.wbo p).take m, m, m, true⟩) := by
  obtain ⟨fuel, rfl⟩ : ∃ f, fuel = f + 2 := ⟨fuel - 2, by omega⟩
  obtain ⟨rbo, wbo, rpr, wpr, rl, hd, ln, off, rb, wo, wl, wb⟩ := fr
  dsimp only at hoff hh8 ⊢
  subst hoff
  have hhdrsz : hdrSizeOfLen p.length = 1 + exLenOfLen p.length := rfl
  have hhlen : (encHeader wbo p.length).length = hdrSizeOfLen p.length :=
    encHeader_length wbo p.length hp
  have hbt : ((buildHeader wbo p.length hd).drop 0).take (1 + exLenOfLen p.length - 0) =
      encHeader wbo p.length := by
    rw [List.drop_zero, Nat.sub_zero,
      show (1 + exLenOfLen p.length) = hdrSizeOfLen p.length from rfl,
      buildHeader_take wbo p.length hd hh8 hp]
  rw [writeStream]
  rw [if_neg (show ¬ (2 ^ 56 - 1 < p.length) from by omega)]
  dsimp only
  rw [if_pos rfl]
  rw [if_neg (show ¬ (p.length ≠ p.length) from fun h => h rfl)]
  simp only
  rw [if_true]
  by_cases hreg : m < hdrSizeOfLen p.length
  · have hwo1 : writeOnce midBlockW ⟨buf0, m, 0, false⟩
        (((buildHeader wbo p.length hd).drop 0).take (1 + exLenOfLen p.length - 0)) =
        (m, some .wouldBlock, ⟨buf0 ++ (encHeader wbo p.length).take m, m, m, true⟩) := by
      rw [hbt]
      have h := midBlock_block ⟨buf0, m, 0, false⟩ (encHeader wbo p.length) rfl
        (by dsimp only; omega)
      simpa using h
    rw [wsHdr_err midBlockW (fuel + 1) _ _ _ _ m .wouldBlock (by dsimp only; omega) hwo1]
    simp only
    have hwt : (encWire wbo p).take m = (encHeader wbo p.length).take m := by
      rw [encWire, List.take_append_eq_append_take]
      rw [show m - (encHeader wbo p.length).length = 0 from by omega]
      simp
    rw [hwt]
    have hn : m - hdrSizeOfLen p.length = 0 := by omega
    rw [hn]
    simp
  · have hwo1 : writeOnce midBlockW ⟨buf0, m, 0, false⟩
        (((buildHeader wbo p.length hd).drop 0).take (1 + exLenOfLen p.length - 0)) =
        (1 + exLenOfLen p.length - 0, none,
          ⟨buf0 ++ encHeader wbo p.length, m, hdrSizeOfLen p.length, false⟩) := by
      rw [hbt]
      have h := midBlock_accept ⟨buf0, m, 0, false⟩ (encHeader wbo p.length)
        (Or.inr (by dsimp only; omega))
      rw [h]
      simp [hhlen, hhdrsz]
    rw [wsHdr_chunk midBlockW fuel _ _ _ (1 + exLenOfLen p.length) (by dsimp only; omega) hwo1]
    simp only
    have hwo2 : writeOnce midBlockW
        ⟨buf0 ++ encHeader wbo p.length, m, hdrSizeOfLen p.length, false⟩
        (p.drop (1 + exLenOfLen p.length - (1 + exLenOfLen p.length))) =
        (m - hdrSizeOfLen p.length, some .wouldBlock,
          ⟨(buf0 ++ encHeader wbo p.length) ++ p.take (m - hdrSizeOfLen p.length), m,
            hdrSizeOfLen p.length + (m - hdrSizeOfLen p.length), true⟩) := by
      rw [Nat.sub_self, List.drop_zero]
      have h := midBlock_block ⟨buf0 ++ encHeader wbo p.length, m, hdrSizeOfLen p.length, false⟩
        p rfl (by dsimp only; omega)
      simpa [hhdrsz] using h
    rw [wsPay_err midBlockW (fuel + 1) _ _ _ p _ 0 (m - hdrSizeOfLen p.length) .wouldBlock
      (by dsimp only; omega) hwo2]
    simp only
    have hwt : (encWire wbo p).take m =
        encHeader wbo p.length ++ p.take (m - hdrSizeOfLen p.length) := by
      rw [encWire, List.take_append_eq_append_take]
      rw [List.take_of_length_le (by omega), hhlen]
    rw [hwt]
    simp [List.append_assoc]
    omega

/-- Resumed `write_one` with the same payload once the sink has unblocked:
the call emits exactly the remaining wire bytes `wire[m:]` (no byte is
duplicated), returns the remaining payload count with ok and resets the
per-message state. -/
theorem writeStream_midBlock_resume (fuel : Nat) (fr : Framer) (p buf1 : List Nat)
    (m lim wr : Nat) (h8 : List Nat)
    (hfuel : 2 ≤ fuel) (hh8 : h8.length = 8)
    (hhdr : fr.header = buildHeader fr.wbo p.length h8)
    (hlen : fr.length = p.length)
    (hoff : fr.offset = m)
    (hp : p.length ≤ 2 ^ 56 - 1)
    (hm0 : 0 < m) (hmw : m < hdrSizeOfLen p.length + p.length) :
    writeStream midBlockW fuel fr ⟨buf1, lim, wr, true⟩ p =
      some (p.length - (m - hdrSizeOfLen p.length), none,
        ({ fr with offset := 0, length := 0 }),
        ⟨buf1 ++ (encWire fr.wbo p).drop m, lim,
          wr + (hdrSizeOfLen p.length + p.length - m), true⟩) := by
  obtain ⟨fuel, rfl⟩ : ∃ f, fuel = f + 2 := ⟨fuel - 2, by omega⟩
  obtain ⟨rbo, wbo, rpr, wpr, rl, hd, ln, off, rb, wo, wl, wb⟩ := fr
  dsimp only at hhdr hlen hoff ⊢
  subst hhdr
  subst hlen
  subst hoff
  have hhdrsz : hdrSizeOfLen p.length = 1 + exLenOfLen p.length := rfl
  have hppos : 0 < p.length := by
    by_contra h
    have hl0 : p.length = 0 := by omega
    rw [hl0] at hmw
    have h1 : hdrSizeOfLen 0 = 1 := rfl
    omega
  have hhlen : (encHeader wbo p.length).length = hdrSizeOfLen p.length :=
    encHeader_length wbo p.length hp
  have hbl : (buildHeader wbo p.length h8).take (hdrSizeOfLen p.length) =
      encHeader wbo p.length := buildHeader_take wbo p.length h8 hh8 hp
  rw [writeStream]
  rw [if_neg (show ¬ (2 ^ 56 - 1 < p.length) from by omega)]
  dsimp only
  rw [if_neg (by omega : ¬ off = 0)]
  rw [if_neg (show ¬ (p.length ≠ p.length) from fun h => h rfl)]
  simp only
  rw [if_neg (by omega : ¬ off = 0)]
  by_cases hreg : off < hdrSizeOfLen p.length
  · -- finish the header, then the whole payload
    have hsl : ((buildHeader wbo p.length h8).drop off).take
        (1 + exLenOfLen p.length - off) = (encHeader wbo p.length).drop off := by
      rw [← hbl, List.drop_take]
      rw [show hdrSizeOfLen p.length - off = 1 + exLenOfLen p.length - off from by omega]
    have hsllen : ((encHeader wbo p.length).drop off).length =
        1 + exLenOfLen p.length - off := by
      rw [List.length_drop, hhlen]
      omega
    have hwo1 : writeOnce midBlockW ⟨buf1, lim, wr, true⟩
        (((buildHeader wbo p.length h8).drop off).take (1 + exLenOfLen p.length - off)) =
        (1 + exLenOfLen p.length - off, none,
          ⟨buf1 ++ (encHeader wbo p.length).drop off, lim,
            wr + (1 + exLenOfLen p.length - off), true⟩) := by
      rw [hsl]
      have h := midBlock_accept ⟨buf1, lim, wr, true⟩ ((encHeader wbo p.length).drop off)
        (Or.inl rfl)
      rw [h]
      simp [hsllen]
    rw [wsHdr_chunk midBlockW fuel _ _ _ (1 + exLenOfLen p.length)
      (by dsimp only; omega) hwo1]
    simp only
    have hwo2 : writeOnce midBlockW
        ⟨buf1 ++ (encHeader wbo p.length).drop off, lim,
          wr + (1 + exLenOfLen p.length - off), true⟩
        (p.drop (1 + exLenOfLen p.length - (1 + exLenOfLen p.length))) =
        ((p.drop (1 + exLenOfLen p.length - (1 + exLenOfLen p.length))).length, none,
          ⟨(buf1 ++ (encHeader wbo p.length).drop off) ++ p, lim,
            wr + (1 + exLenOfLen p.length - off) + p.length, true⟩) := by
      rw [Nat.sub_self, List.drop_zero]
      have h := midBlock_accept
        ⟨buf1 ++ (encHeader wbo p.length).drop off, lim,
          wr + (1 + exLenOfLen p.length - off), true⟩ p (Or.inl rfl)
      rw [h]
    rw [wsPay_chunk midBlockW fuel _ _ _ p (1 + exLenOfLen p.length) 0
      (by dsimp only; omega) hwo2
      (by dsimp only; rw [Nat.sub_self, List.drop_zero])]
    simp only
    have hwd : (encWire wbo p).drop off = (encHeader wbo p.length).drop off ++ p := by
      rw [encWire, List.drop_append_eq_append_drop]
      rw [show off - (encHeader wbo p.length).length = 0 from by omega]
      simp
    rw [hwd]
    have hn : off - hdrSizeOfLen p.length = 0 := by omega
    rw [hn]
    simp [List.append_assoc]
    omega
  · -- header already on the wire: emit the remaining payload only
    rw [wsHdr_done midBlockW (fuel + 1) _ _ (1 + exLenOfLen p.length) (by dsimp only; omega)]
    simp only
    have hdl : (p.drop (off - (1 + exLenOfLen p.length))).length =
        p.length - (off - (1 + exLenOfLen p.length)) := List.length_drop _ _
    have hwo2 : writeOnce midBlockW ⟨buf1, lim, wr, true⟩
        (p.drop (off - (1 + exLenOfLen p.length))) =
        ((p.drop (off - (1 + exLenOfLen p.length))).length, none,
          ⟨buf1 ++ p.drop (off - (1 + exLenOfLen p.length)), lim,
            wr + (p.drop (off - (1 + exLenOfLen p.length))).length, true⟩) := by
      have h := midBlock_accept ⟨buf1, lim, wr, true⟩
        (p.drop (off - (1 + exLenOfLen p.length))) (Or.inl rfl)
      rw [h]
    rw [wsPay_chunk midBlockW fuel _ _ _ p (1 + exLenOfLen p.length) 0
      (by dsimp only; omega) hwo2 (by dsimp only; rw [hdl]; omega)]
    simp only
    have hwd : (encWire wbo p).drop off = p.drop (off - hdrSizeOfLen p.length) := by
      rw [encWire, List.drop_append_eq_append_drop]
      rw [List.drop_eq_nil_of_le (by omega), hhlen, List.nil_append]
    rw [hwd]
    rw [show off - (1 + exLenOfLen p.length) = off - hdrSizeOfLen p.length from by omega]
    simp [hdl]
    omega

theorem writeStream_guard (W : WriterM σ) (fuel : Nat) (fr : Framer) (w : σ) (q : List Nat)
    (hoff : fr.offset ≠ 0) (hlen : fr.length ≠ q.length) (hq : q.length ≤ 2 ^ 56 - 1) :
    writeStream W fuel fr w q = some (0, some .shortWrite, fr, w) := by
  rw [writeStream]
  rw [if_neg (by omega)]
  dsimp only
  rw [if_neg hoff]
  rw [if_pos hlen]

/-- C5 — Stream-write message identity across a would-block interruption: a
`write_one` interrupted by would-block after `m` wire bytes and resumed with
the *same* input emits the canonical wire form of the message exactly once
(the sink ends with `header ++ p`, no byte duplicated) and returns the
remaining payload count with ok; while the message is in flight, a call whose
input length differs from the length fixed on the first call returns
`(0, short-write)` and leaves both the codec state and the sink unchanged. -/
theorem c5_write_identity (fuel : Nat) (fr : Framer) (p q buf0 : List Nat) (m : Nat)
    (hfuel : 2 ≤ fuel)
    (hoff : fr.offset = 0) (hh8 : fr.header.length = 8)
    (hp : p.length ≤ 2 ^ 56 - 1) (hq : q.length ≤ 2 ^ 56 - 1)
    (hqp : q.length ≠ p.length)
    (hm0 : 0 < m) (hmw : m < hdrSizeOfLen p.length + p.length) :
    writeStream midBlockW fuel fr ⟨buf0, m, 0, false⟩ p =
      some (m - hdrSizeOfLen p.length, some .wouldBlock,
        ({ fr with header := buildHeader fr.wbo p.length fr.header,
                   length := p.length, offset := m }),
        ⟨buf0 ++ (encWire fr.wbo p).take m, m, m, true⟩) ∧
    writeStream midBlockW fuel
        ({ fr with header := buildHeader fr.wbo p.length fr.header,
                   length := p.length, offset := m })
        ⟨buf0 ++ (encWire fr.wbo p).take m, m, m, true⟩ p =
      some (p.length - (m - hdrSizeOfLen p.length), none,
        ({ fr with header := buildHeader fr.wbo p.length fr.header,
                   offset := 0, length := 0 }),
        ⟨buf0 ++ encWire fr.wbo p, m, hdrSizeOfLen p.length + p.length, true⟩) ∧
    writeStream midBlockW fuel
        ({ fr with header := buildHeader fr.wbo p.length fr.header,
                   length := p.length, offset := m })
        ⟨buf0 ++ (encWire fr.wbo p).take m, m, m, true⟩ q =
      some (0, some .shortWrite,
        ({ fr with header := buildHeader fr.wbo p.length fr.header,
                   length := p.length, offset := m }),
        ⟨buf0 ++ (encWire fr.wbo p).take m, m, m, true⟩) := by
  refine ⟨writeStream_midBlock_first fuel fr p buf0 m hfuel hoff hh8 hp hm0 hmw, ?_, ?_⟩
  · have h := writeStream_midBlock_resume fuel
      ({ fr with header := buildHeader fr.wbo p.length fr.header,
                 length := p.length, offset := m })
      p (buf0 ++ (encWire fr.wbo p).take m) m m m fr.header hfuel hh8 rfl rfl rfl hp hm0 hmw
    simp only at h
    rw [h]
    simp [List.append_assoc, List.take_append_drop]
    omega
  · exact writeStream_guard midBlockW fuel _ _ q (by simp only; omega)
      (by simp only; exact fun h => hqp h.symm) hq

/-- Witness for C5 at a concrete input: payload `[5, 6]`, sink limit `m = 2`,
mismatched resumption input `[7]`. -/
theorem c5_write_identity_witness :
    (writeStream midBlockW 8 (mkFramer .big 0) ⟨[], 2, 0, false⟩ [5, 6] =
      some (1, some .wouldBlock,
        ({ mkFramer ByteOrd.big 0 with
             header := buildHeader ByteOrd.big 2 (mkFramer ByteOrd.big 0).header,
             length := 2, offset := 2 }),
        ⟨[2, 5], 2, 2, true⟩)) ∧
    (writeStream midBlockW 8
        ({ mkFramer ByteOrd.big 0 with
             header := buildHeader ByteOrd.big 2 (mkFramer ByteOrd.big 0).header,
             length := 2, offset := 2 })
        ⟨[2, 5], 2, 2, true⟩ [5, 6] =
      some (1, none,
        ({ mkFramer ByteOrd.big 0 with
             header := buildHeader ByteOrd.big 2 (mkFramer ByteOrd.big 0).header,
             offset := 0, length := 0 }),
        ⟨[2, 5, 6], 2, 3, true⟩)) ∧
    (writeStream midBlockW 8
        ({ mkFramer ByteOrd.big 0 with
             header := buildHeader ByteOrd.big 2 (mkFramer ByteOrd.big 0).header,
             length := 2, offset := 2 })
        ⟨[2, 5], 2, 2, true⟩ [7] =
      some (0, some .shortWrite,
        ({ mkFramer ByteOrd.big 0 with
             header := buildHeader ByteOrd.big 2 (mkFramer ByteOrd.big 0).header,
             length := 2, offset := 2 }),
        ⟨[2, 5], 2, 2, true⟩)) :=
  c5_write_identity 8 (mkFramer .big 0) [5, 6] [7] [] 2
    (by decide) rfl (by decide) (by decide) (by decide) (by decide) (by decide) (by decide)

/-! ## Claim C9: `Writer.ReadFrom` (fill_from) against a blocking sink -/

/-- `Writer.ReadFrom` (chunk-to-message fill loop): reads a chunk from `src`
into the 32 KiB scratch, encodes it as one framed message via `framer.write`,
accumulates the written count, and returns on any error (EOF from the source
maps to ok).  The scratch buffer itself is never observed, so its allocation
is not modelled; `32768` is its capacity as the read bound.  Faithful to the
source: no in-flight write state is consulted or resumed before reading the
next chunk. -/
def readFrom (W : WriterM σ) : Nat → Framer → Script → σ → Nat →
    Option (Nat × Option IOErr × Framer × Script × σ)
  | 0, _, _, _, _ => none
  | fuel + 1, fr, src, w, total =>
    match scriptRead src 32768 with
    | (bs, er, src') =>
      if 0 < bs.length then
        match fwrite W fuel fr w bs with
        | none => none
        | some (wn, we, fr', w') =>
          let total' := total + wn
          match we with
          | some e => some (total', some e, fr', src', w')
          | none =>
            if wn ≠ bs.length then some (total', some .shortWrite, fr', src', w')
            else
              match er with
              | some .eof => some (total', none, fr', src', w')
              | some e => some (total', some e, fr', src', w')
              | none => readFrom W fuel fr' src' w' total'
      else
        match er with
        | some .eof => some (total, none, fr, src', w)
        | some e => some (total, some e, fr, src', w)
        | none => readFrom W fuel fr src' w total

/-- C9 — contradicted by the code (scenario S7): `ReadFrom` over a source
yielding one 5-byte chunk (`"hello"`) with a sink that accepts 3 bytes
(lead byte plus 2 payload bytes) before would-blocking: the first call
returns `(2, would-block)` as specified, but the second call performs no
resumption of the in-flight message — it reads the source again, sees EOF
and returns `(0, ok)`, leaving the wire at `[5, 104, 101]` instead of the
specified `[5, 104, 101, 108, 108, 111]`; the 3 remaining payload bytes are
never written. -/
theorem c9_readFrom_no_resume :
    (readFrom midBlockW 8 (mkFramer .big 0)
        [([104, 101, 108, 108, 111], none)] ⟨[], 3, 0, false⟩ 0 =
      some (2, some .wouldBlock,
        ({ mkFramer ByteOrd.big 0 with
             header := buildHeader ByteOrd.big 5 (mkFramer ByteOrd.big 0).header,
             length := 5, offset := 3 }),
        [], ⟨[5, 104, 101], 3, 3, true⟩)) ∧
    (readFrom midBlockW 8
        ({ mkFramer ByteOrd.big 0 with
             header := buildHeader ByteOrd.big 5 (mkFramer ByteOrd.big 0).header,
             length := 5, offset := 3 })
        [] ⟨[5, 104, 101], 3, 3, true⟩ 0 =
      some (0, none,
        ({ mkFramer ByteOrd.big 0 with
             header := buildHeader ByteOrd.big 5 (mkFramer ByteOrd.big 0).header,
             length := 5, offset := 3 }),
        [], ⟨[5, 104, 101], 3, 3, true⟩)) ∧
    ([5, 104, 101] : List Nat) ≠ [5, 104, 101, 108, 108, 111] :=
  ⟨rfl, rfl, by decide⟩

/-! ## Claim C8: `Reader.WriteTo` (drain_to) with a partially-accepting sink -/

/-- Payload-drain loop of `Reader.WriteTo` (stream branch): writes
`rbuf[off:need]` to the sink until done, accumulating `total`; a semantic
error returns immediately, and a `(0, nil)` write maps to short-write. -/
def wtDrain (W : WriterM σ) : Nat → σ → List Nat → Nat → Nat → Nat →
    Option (Nat × Nat × σ × Option IOErr)
  | 0, _, _, _, _, _ => none
  | fuel + 1, w, buf, off, need, total =>
    if off < need then
      match W.write w ((buf.drop off).take (need - off)) with
      | (wn, we, w') =>
        let total' := total + wn
        let off' := off + wn
        match we with
        | some e => some (total', off', w', some e)
        | none =>
          if wn = 0 then some (total', off', w', some .shortWrite)
          else wtDrain W fuel w' buf off' need total'
    else some (total, off, w, none)

/-- Payload-fill loop of `Reader.WriteTo` (stream branch): reads the payload
into `rbuf[got:need]` via `framer.read`; EOF inside maps to unexpected-EOF.
The slice write-back is `writeAt rbuf got`. -/
def wtFill : Nat → Framer → Script → List Nat → Nat → Nat →
    Option (Framer × Script × List Nat × Nat × Option IOErr)
  | 0, _, _, _, _, _ => none
  | fuel + 1, fr, s, rbuf, got, need =>
    if got < need then
      match fread fuel fr s ((rbuf.drop got).take (need - got)) with
      | none => none
      | some (n, e, fr', s', d') =>
        let rbuf' := writeAt rbuf got d'
        let got' := got + n
        match e with
        | some .eof => some (fr', s', rbuf', got', some .unexpectedEOF)
        | some e => some (fr', s', rbuf', got', some e)
        | none => wtFill fuel fr' s' rbuf' got' need
    else some (fr, s, rbuf, got, none)

/-- Stream branch of `Reader.WriteTo`: per message, a zero-length `read`
drives the header parse (expecting short-buffer), the payload is filled into
the scratch and then drained to the sink.  Faithful to the source: on a
partial drain the function returns with the progress count and the sink's
error, recording nothing in `wtOff`/`wtLen`, and the next call starts over
with a header read. -/
def writeToStream (W : WriterM σ) : Nat → Framer → Script → List Nat → σ → Nat →
    Option (Nat × Option IOErr × Framer × Script × List Nat × σ)
  | 0, _, _, _, _, _ => none
  | fuel + 1, fr, s, rbuf, w, total =>
    match fread fuel fr s [] with
    | none => none
    | some (_, err, fr1, s1, _) =>
      match err with
      | some .shortBuffer =>
        if rbuf.length < fr1.length then some (total, some .tooLong, fr1, s1, rbuf, w)
        else
          match wtFill fuel fr1 s1 rbuf 0 fr1.length with
          | none => none
          | some (fr2, s2, rbuf2, _, some e) => some (total, some e, fr2, s2, rbuf2, w)
          | some (fr2, s2, rbuf2, _, none) =>
            match wtDrain W fuel w rbuf2 0 fr1.length total with
            | none => none
            | some (total2, _, w2, some e) => some (total2, some e, fr2, s2, rbuf2, w2)
            | some (total2, _, w2, none) => writeToStream W fuel fr2 s2 rbuf2 w2 total2
      | some .eof => some (total, none, fr1, s1, rbuf, w)
      | some e => some (total, some e, fr1, s1, rbuf, w)
      | none =>
        if fr1.length = 0 then writeToStream W fuel fr1 s1 rbuf w total
        else
          match wtFill fuel fr1 s1 rbuf 0 fr1.length with
          | none => none
          | some (fr2, s2, rbuf2, _, some e) => some (total, some e, fr2, s2, rbuf2, w)
          | some (fr2, s2, rbuf2, _, none) =>
            match wtDrain W fuel w rbuf2 0 fr1.length total with
            | none => none
            | some (total2, _, w2, some e) => some (total2, some e, fr2, s2, rbuf2, w2)
            | some (total2, _, w2, none) => writeToStream W fuel fr2 s2 rbuf2 w2 total2

/-- One `Reader.WriteTo` call in stream mode: allocates the scratch (sized by
`readLimit`, defaulting to 64 KiB) when absent, then runs the message loop
with `total = 0`. -/
def writeTo (W : WriterM σ) (fuel : Nat) (fr : Framer) (s : Script) (w : σ) :
    Option (Nat × Option IOErr × Framer × Script × List Nat × σ) :=
  let rbuf :=
    match fr.rbuf with
    | some b => b
    | none => List.replicate (if fr.readLimit = 0 then 65536 else fr.readLimit) 0
  writeToStream W fuel fr s rbuf w 0

/-- C8 — contradicted by the code: a stream-mode `WriteTo` whose sink accepts
only 2 of the 3 payload bytes of the message `[3, 98, 121, 116]` returns
`(2, would-block)` but records nothing in `wtOff`/`wtLen` (they stay `0`),
and the next `WriteTo` call does not drain the unwritten byte: it reads the
source again (EOF) and returns `(0, ok)`, so payload byte `116`, already
consumed from the source, is lost. -/
theorem c8_writeTo_no_unwritten_range :
    (writeTo midBlockW 8 (mkFramer .big 4) [([3, 98, 121, 116], none)] ⟨[], 2, 0, false⟩ =
      some (2, some .wouldBlock,
        ({ mkFramer ByteOrd.big 4 with
             header := writeAt (mkFramer ByteOrd.big 4).header 0 [3],
             offset := 0, length := 0 }),
        [], [98, 121, 116, 0], ⟨[98, 121], 2, 2, true⟩)) ∧
    ((({ mkFramer ByteOrd.big 4 with
           header := writeAt (mkFramer ByteOrd.big 4).header 0 [3],
           offset := 0, length := 0 }) : Framer).wtOff = 0 ∧
     (({ mkFramer ByteOrd.big 4 with
           header := writeAt (mkFramer ByteOrd.big 4).header 0 [3],
           offset := 0, length := 0 }) : Framer).wtLen = 0) ∧
    (writeTo midBlockW 8
        ({ mkFramer ByteOrd.big 4 with
             header := writeAt (mkFramer ByteOrd.big 4).header 0 [3],
             offset := 0, length := 0 })
        [] ⟨[98, 121], 2, 2, true⟩ =
      some (0, none,
        ({ mkFramer ByteOrd.big 4 with
             header := writeAt (mkFramer ByteOrd.big 4).header 0 [3],
             offset := 0, length := 0 }),
        [], [0, 0, 0, 0], ⟨[98, 121], 2, 2, true⟩)) ∧
    ([98, 121] : List Nat) ≠ [98, 121, 116] :=
  ⟨rfl, ⟨rfl, rfl⟩, rfl, by decide⟩

/-! ## Claims C6 and C7: the Forwarder -/

/-- `Forwarder` state: read/write framers, the internal payload buffer, and
the per-message phase machine. -/
structure FwdSt where
  rr : Framer
  ww : Framer
  buf : List Nat
  need : Nat
  got : Nat
  state : Nat
  eofAfterThis : Bool
  eofPending : Bool

/-- `NewForwarder`: both framers get the same options; the internal buffer is
sized by the read limit (64 KiB when zero). -/
def newForwarder (bo : ByteOrd) (limit : Nat) (rpr wpr : Protocol) : FwdSt :=
  { rr := { mkFramer bo limit with rpr := rpr, wpr := wpr },
    ww := { mkFramer bo limit with rpr := rpr, wpr := wpr },
    buf := List.replicate (if limit = 0 then 65536 else limit) 0,
    need := 0, got := 0, state := 0, eofAfterThis := false, eofPending := false }

/-- Phase 0 of `ForwardOnce`: drive the header parse (stream) or arm the
packet read.  `Sum.inl` is an early `return`, `Sum.inr` falls through. -/
def fwdStep0 (fuel : Nat) (f : FwdSt) (src : Script) :
    Option ((Nat × Option IOErr × FwdSt × Script) ⊕ (FwdSt × Script)) :=
  if f.state = 0 then
    if f.rr.rpr.preserveBoundary then
      some (Sum.inr ({ f with got := 0, need := 0, state := 1 }, src))
    else
      match fread fuel f.rr src [] with
      | none => none
      | some (_, e, rr', src', _) =>
        match e with
        | some .shortBuffer =>
          if f.buf.length < rr'.length then
            some (Sum.inl (0, some .shortBuffer, { f with rr := rr' }, src'))
          else
            some (Sum.inr ({ f with rr := rr', need := rr'.length, got := 0, state := 1 },
              src'))
        | some e => some (Sum.inl (0, some e, { f with rr := rr' }, src'))
        | none => some (Sum.inr ({ f with rr := rr', need := 0, got := 0, state := 2 }, src'))
  else some (Sum.inr (f, src))

/-- Stream payload-read loop of phase 1: `rr.read(buf[:need])` until `got`
reaches `need`; the framer's own offset places the bytes. -/
def fwdFill : Nat → FwdSt → Script →
    Option ((Nat × Option IOErr × FwdSt × Script) ⊕ (FwdSt × Script))
  | 0, _, _ => none
  | fuel + 1, f, src =>
    if f.got < f.need then
      match fread fuel f.rr src (f.buf.take f.need) with
      | none => none
      | some (rn, re, rr', src', d') =>
        let f' := { f with rr := rr', buf := writeAt f.buf 0 d', got := f.got + rn }
        match re with
        | some .wouldBlock => some (Sum.inl (rn, some .wouldBlock, f', src'))
        | some .more => some (Sum.inl (rn, some .more, f', src'))
        | some .eof => some (Sum.inl (f'.got, some .unexpectedEOF, f', src'))
        | some e => some (Sum.inl (rn, some e, f', src'))
        | none => fwdFill fuel f' src'
    else some (Sum.inr ({ f with state := 2 }, src))

/-- Phase 1 of `ForwardOnce`: read the payload into the internal buffer
(packet: one bounded read, with the `(n>0, EOF)` idiom; stream: the fill
loop). -/
def fwdStep1 (fuel : Nat) (f : FwdSt) (src : Script) :
    Option ((Nat × Option IOErr × FwdSt × Script) ⊕ (FwdSt × Script)) :=
  if f.state = 1 then
    if f.rr.rpr.preserveBoundary then
      let mx := if 0 < f.rr.readLimit ∧ f.rr.readLimit < f.buf.length
                then f.rr.readLimit else f.buf.length
      match fread fuel f.rr src ((f.buf.drop f.got).take (mx - f.got)) with
      | none => none
      | some (rn, re, rr', src', d') =>
        let f' := { f with rr := rr', buf := writeAt f.buf f.got d', got := f.got + rn }
        match re with
        | some .wouldBlock => some (Sum.inl (rn, some .wouldBlock, f', src'))
        | some .more => some (Sum.inl (rn, some .more, f', src'))
        | some .tooLong => some (Sum.inl (rn, some .tooLong, f', src'))
        | some .eof =>
          if f'.got = 0 then some (Sum.inl (0, some .eof, f', src'))
          else some (Sum.inr ({ f' with eofAfterThis := true, need := f'.got, state := 2 },
            src'))
        | some e => some (Sum.inl (rn, some e, f', src'))
        | none => some (Sum.inr ({ f' with need := f'.got, state := 2 }, src'))
    else fwdFill fuel f src
  else some (Sum.inr (f, src))

/-- Phase 2 of `ForwardOnce`: write `buf[:need]` as one message via the
write-side framer, then reset the per-message state (latching a pending EOF
from the packet `(n>0, EOF)` idiom). -/
def fwdStep2 (W : WriterM σ) (fuel : Nat) (f : FwdSt) (src : Script) (w : σ) :
    Option (Nat × Option IOErr × FwdSt × Script × σ) :=
  if f.state = 2 then
    match fwrite W fuel f.ww w (f.buf.take f.need) with
    | none => none
    | some (wn, we, ww', w') =>
      match we with
      | some e => some (wn, some e, { f with ww := ww' }, src, w')
      | none =>
        if f.eofAfterThis then
          some (wn, none,
            { f with ww := ww', eofAfterThis := false, eofPending := true,
                     state := 0, need := 0, got := 0 }, src, w')
        else
          some (wn, none, { f with ww := ww', state := 0, need := 0, got := 0 }, src, w')
  else some (0, none, f, src, w)

/-- `Forwarder.ForwardOnce`. -/
def forwardOnce (W : WriterM σ) (fuel : Nat) (f : FwdSt) (src : Script) (w : σ) :
    Option (Nat × Option IOErr × FwdSt × Script × σ) :=
  if f.state = 0 ∧ f.eofPending then some (0, some .eof, f, src, w)
  else
    match fwdStep0 fuel f src with
    | none => none
    | some (Sum.inl r) => some (r.1, r.2.1, r.2.2.1, r.2.2.2, w)
    | some (Sum.inr (f1, src1)) =>
      match fwdStep1 fuel f1 src1 with
      | none => none
      | some (Sum.inl r) => some (r.1, r.2.1, r.2.2.1, r.2.2.2, w)
      | some (Sum.inr (f2, src2)) => fwdStep2 W fuel f2 src2 w

/-- C7 — Packet final-EOF idiom: in packet mode (either packet-preserving
protocol, any byte order, any read limit), when the source's last read
returns `n > 0` bytes `d` together with end-of-stream, that `ForwardOnce`
call forwards exactly `d` to the destination and returns `(len(d), ok)`,
and the immediately following `ForwardOnce` on the same forwarder — whatever
its source and sink then look like — returns `(0, end-of-stream)`. -/
theorem c7_packet_final_eof (W : WriterM σ) (app : σ → List Nat → σ)
    (happ : ∀ w q, W.write w q = (q.length, none, app w q))
    (fuel : Nat) (bo : ByteOrd) (limit : Nat) (rpr wpr : Protocol)
    (d : List Nat) (rest src2 : Script) (w : σ) (w2 : σ)
    (hrp : rpr.preserveBoundary = true) (hwp : wpr.preserveBoundary = true)
    (hd0 : d ≠ [])
    (hd56 : d.length ≤ 2 ^ 56 - 1)
    (hdcap : d.length ≤ (if limit = 0 then 65536 else limit))
    (hdlim : limit = 0 ∨ d.length ≤ limit) :
    ∃ f', forwardOnce W fuel (newForwarder bo limit rpr wpr) ((d, some .eof) :: rest) w =
        some (d.length, none, f', rest, app w d) ∧
      f'.state = 0 ∧ f'.eofPending = true ∧
      forwardOnce W fuel f' src2 w2 = some (0, some .eof, f', src2, w2) := by
  have hdpos : 0 < d.length := List.length_pos.mpr hd0
  have hcap : (List.replicate (if limit = 0 then 65536 else limit) 0).length =
      (if limit = 0 then 65536 else limit) := List.length_replicate _ _
  simp only [forwardOnce, fwdStep0, fwdStep1, fwdStep2, fread, fwrite, newForwarder, mkFramer]
  rw [if_neg (by simp)]
  rw [if_true]
  rw [if_pos hrp]
  simp only
  rw [if_true]
  rw [if_pos hrp]
  rw [if_pos hrp]
  have hmx : ¬ (0 < limit ∧
      limit < (List.replicate (if limit = 0 then 65536 else limit) 0).length) := by
    rw [hcap]
    by_cases h : limit = 0
    · simp [h]
    · rw [if_neg h]
      omega
  rw [if_neg hmx]
  rw [List.drop_zero, Nat.sub_zero, List.take_length]
  rw [readPacket]
  have hro : readOnce ((d, some .eof) :: rest)
      (List.replicate (if limit = 0 then 65536 else limit) 0).length =
      (d, some .eof, rest) :=
    readOnce_serveAllE _ _ _ _ hd0 (by rw [hcap]; exact hdcap)
  rw [hro]
  simp only
  rw [if_neg (show ¬ (0 < limit ∧ limit < d.length) from by
    rcases hdlim with h | h <;> omega)]
  simp only
  rw [if_neg (by omega : ¬ (0 + d.length = 0))]
  simp only
  rw [if_true]
  have hbb : writeAt (List.replicate (if limit = 0 then 65536 else limit) 0) 0
      (writeAt (List.replicate (if limit = 0 then 65536 else limit) 0) 0 d) =
      writeAt (List.replicate (if limit = 0 then 65536 else limit) 0) 0 d := by
    rw [writeAt_zero (List.replicate (if limit = 0 then 65536 else limit) 0)
      (writeAt (List.replicate (if limit = 0 then 65536 else limit) 0) 0 d)]
    rw [length_writeAt _ _ _ (by rw [hcap]; omega)]
    rw [List.drop_length, List.append_nil]
  rw [hbb]
  rw [Nat.zero_add]
  rw [take_writeAt_zero]
  rw [if_pos hwp]
  rw [writePacket]
  rw [if_neg (by omega : ¬ (2 ^ 56 - 1 < d.length))]
  rw [writeOnce, happ]
  dsimp only
  rw [if_neg (fun hc => hc.1 hc.2.1)]
  simp only
  rw [if_neg (show ¬ (d.length ≠ d.length) from fun h => h rfl)]
  simp only
  rw [if_true]
  refine ⟨_, rfl, rfl, rfl, ?_⟩
  rw [if_pos ⟨rfl, rfl⟩]

/-- Witness for C7 at a concrete input: packet `[7, 8, 9]` delivered with the
terminal EOF on a seqPacket forwarder with read limit 4 and an accept-all
sink. -/
theorem c7_packet_final_eof_witness :
    ∃ f', forwardOnce bufW 8 (newForwarder .big 4 .seqPacket .seqPacket)
          [([7, 8, 9], some .eof)] [] =
        some (3, none, f', [], [7, 8, 9]) ∧
      f'.state = 0 ∧ f'.eofPending = true ∧
      forwardOnce bufW 8 f' [] [7, 8, 9] = some (0, some .eof, f', [], [7, 8, 9]) :=
  c7_packet_final_eof bufW (fun w q => w ++ q) (fun w q => rfl) 8 .big 4
    .seqPacket .seqPacket [7, 8, 9] [] [] [] [7, 8, 9]
    rfl rfl (by decide) (by decide) (by decide) (by decide)

theorem hdrSizeOfLen_le8 (L : Nat) : hdrSizeOfLen L ≤ 8 := by
  rw [hdrSizeOfLen, exLenOfLen]
  split
  · omega
  · split <;> omega

theorem buildHeader_length (bo : ByteOrd) (L : Nat) (h8 : List Nat)
    (hh8 : h8.length = 8) : (buildHeader bo L h8).length = 8 := by
  rw [buildHeader]
  split
  · rw [length_writeAt _ _ _ (by simp [hh8])]
    exact hh8
  · split
    · rw [length_writeAt, length_writeAt _ _ _ (by simp [hh8])]
      · exact hh8
      · rw [length_writeAt _ _ _ (by simp [hh8]), hh8]
        have := bPutUint16_length bo (L % 2 ^ 16)
        omega
    · cases bo
      · rw [show (if ByteOrd.big = ByteOrd.little then bPutUint64 ByteOrd.big (L <<< 8)
            else bPutUint64 ByteOrd.big (L &&& 2 ^ 56 - 1)) =
            bPutUint64 ByteOrd.big (L &&& 2 ^ 56 - 1) from by simp]
        rw [length_writeAt _ _ _ (by rw [length_bPutUint64]; simp), length_bPutUint64]
      · rw [show (if ByteOrd.little = ByteOrd.little then bPutUint64 ByteOrd.little (L <<< 8)
            else bPutUint64 ByteOrd.little (L &&& 2 ^ 56 - 1)) =
            bPutUint64 ByteOrd.little (L <<< 8) from by simp]
        rw [length_writeAt _ _ _ (by rw [length_bPutUint64]; simp), length_bPutUint64]

/-- Forwarder invariant between messages: idle phase machine and fresh
per-message framer state on both sides. -/
structure FwdInv (bo : ByteOrd) (limit cap : Nat) (f : FwdSt) : Prop where
  state0 : f.state = 0
  eofP : f.eofPending = false
  eofA : f.eofAfterThis = false
  rrbo : f.rr.rbo = bo
  rrpr : f.rr.rpr = .binaryStream
  rrlim : f.rr.readLimit = limit
  rroff : f.rr.offset = 0
  rrhdr : f.rr.header.length = 8
  wwbo : f.ww.wbo = bo
  wwpr : f.ww.wpr = .binaryStream
  wwoff : f.ww.offset = 0
  wwhdr : f.ww.header.length = 8
  bufcap : f.buf.length = cap

theorem forwardOnce_stream_msg (fuel : Nat) (bo : ByteOrd) (limit cap : Nat)
    (f : FwdSt) (p : List Nat) (rest : Script) (acc : List Nat)
    (hinv : FwdInv bo limit cap f) (hfuel : 3 ≤ fuel)
    (hp : p.length ≤ 2 ^ 56 - 1)
    (hlim : limit = 0 ∨ p.length ≤ limit)
    (hcap : p.length ≤ cap) :
    ∃ f', forwardOnce bufW fuel f ((encWire bo p, none) :: rest) acc =
        some (p.length, none, f', rest, acc ++ encWire bo p) ∧ FwdInv bo limit cap f' := by
  obtain ⟨st0, eofP, eofA, rrbo, rrpr, rrlim, rroff, rrhdr, wwbo, wwpr, wwoff, wwhdr,
    bufcap⟩ := hinv
  have hpbr : f.rr.rpr.preserveBoundary = false := by rw [rrpr]; rfl
  have hpbw : f.ww.wpr.preserveBoundary = false := by rw [wwpr]; rfl
  have hlimr : f.rr.readLimit = 0 ∨ p.length ≤ f.rr.readLimit := by
    rw [rrlim]; exact hlim
  have hcr : ¬ (f.rr.rpr.preserveBoundary = true) := by rw [hpbr]; simp
  have hcw : ¬ (f.ww.wpr.preserveBoundary = true) := by rw [hpbw]; simp
  by_cases hp0 : p = []
  · subst hp0
    obtain ⟨fuel, rfl⟩ : ∃ g, fuel = g + 3 := ⟨fuel - 3, by omega⟩
    have hrd := readStream_msg_ok (fuel + 3) f.rr [] [] [] rest (by omega) rroff rrhdr
      (by simp) (Or.inr (Nat.zero_le _)) (by simp)
    rw [rrbo] at hrd
    rw [List.append_nil] at hrd
    rw [show stepAfter ([] : List Nat) none rest = rest from rfl] at hrd
    rw [forwardOnce]
    rw [if_neg (by simp [eofP])]
    rw [fwdStep0]
    rw [if_pos st0]
    rw [if_neg hcr]
    rw [fread]
    rw [if_neg hcr]
    rw [hrd]
    simp only
    rw [fwdStep1]
    rw [if_neg (by simp)]
    simp only
    rw [fwdStep2]
    rw [if_pos rfl]
    simp only
    rw [fwrite]
    rw [if_neg hcw]
    rw [List.take_zero]
    have hwr := writeStream_total bufW (fun w q => w ++ q) (fun w q => rfl)
      (fun w => List.append_nil w) (fuel + 3) f.ww acc [] (by omega) wwoff wwhdr (by simp)
    rw [wwbo] at hwr
    rw [hwr]
    simp only
    rw [if_neg (by rw [eofA]; simp)]
    refine ⟨{ f with
        rr := { f.rr with rbo := bo,
                          header := writeAt f.rr.header 0 (encHeader bo (List.length [])),
                          length := 0, offset := 0 },
        ww := { f.ww with wbo := bo, header := buildHeader bo (List.length []) f.ww.header,
                          length := 0, offset := 0 },
        need := 0, got := 0, state := 0 },
      by rw [List.append_assoc]; rfl, ⟨rfl, eofP, eofA, rfl, rrpr, rrlim, rfl, ?_, rfl,
      wwpr, rfl, ?_, bufcap⟩⟩
    · rw [length_writeAt _ _ _ (by
        rw [encHeader_length bo (List.length []) (by simp)]
        have := hdrSizeOfLen_le8 (List.length ([] : List Nat))
        omega)]
      exact rrhdr
    · exact buildHeader_length bo (List.length []) f.ww.header wwhdr
  · have hppos : 0 < p.length := List.length_pos.mpr hp0
    obtain ⟨fuel, rfl⟩ : ∃ g, fuel = g + 3 := ⟨fuel - 3, by omega⟩
    have hrd := readStream_shortBuffer (fuel + 3) f.rr p.length p [] rest (by omega)
      rroff rrhdr hp hlimr (by simpa using hppos)
    rw [rrbo] at hrd
    rw [show stepAfter p none rest = (p, none) :: rest from by
      rw [stepAfter, if_neg hp0]] at hrd
    rw [forwardOnce]
    rw [if_neg (by simp [eofP])]
    rw [fwdStep0]
    rw [if_pos st0]
    rw [if_neg hcr]
    rw [fread]
    rw [if_neg hcr]
    rw [encWire]
    rw [hrd]
    simp only
    rw [if_neg (by omega)]
    simp only
    rw [fwdStep1]
    rw [if_pos rfl]
    simp only
    rw [if_neg hcr]
    rw [fwdFill]
    rw [if_pos (by simp only []; omega)]
    simp only
    rw [fread]
    rw [if_neg hcr]
    have hres := readStream_resume_pay (fuel + 2)
      ({ f.rr with rbo := bo, header := writeAt f.rr.header 0 (encHeader bo p.length),
                   length := p.length, offset := hdrSizeOfLen p.length })
      p [] (f.buf.take p.length) rest (hdrSizeOfLen p.length) f.rr.header
      (by omega) rrhdr
      (by simp only [])
      (by simp only []) (by simp only [])
      (le_refl _) (by omega) hp (by simp only []; exact hlimr)
      (by rw [List.length_take]; omega)
    simp only [Nat.sub_self, List.drop_zero, List.append_nil, Nat.sub_zero] at hres
    rw [show stepAfter ([] : List Nat) none rest = rest from rfl] at hres
    rw [hres]
    simp only
    have hd' : writeAt (f.buf.take p.length) 0 p = p := by
      rw [writeAt_zero, List.drop_take, Nat.sub_self, List.take_zero, List.append_nil]
    rw [hd']
    rw [fwdFill]
    rw [if_neg (by simp only []; omega)]
    simp only
    rw [fwdStep2]
    rw [if_pos rfl]
    simp only
    rw [fwrite]
    rw [if_neg hcw]
    rw [take_writeAt_zero f.buf p]
    have hwr := writeStream_total bufW (fun w q => w ++ q) (fun w q => rfl)
      (fun w => List.append_nil w) (fuel + 3) f.ww acc p (by omega) wwoff wwhdr hp
    rw [wwbo] at hwr
    rw [hwr]
    simp only
    rw [if_neg (by rw [eofA]; simp)]
    refine ⟨{ f with
        rr := { f.rr with rbo := bo, header := writeAt f.rr.header 0 (encHeader bo p.length),
                          length := 0, offset := 0 },
        ww := { f.ww with wbo := bo, header := buildHeader bo p.length f.ww.header,
                          length := 0, offset := 0 },
        buf := writeAt f.buf 0 p, need := 0, got := 0, state := 0 },
      by rw [List.append_assoc], ⟨rfl, eofP, eofA, rfl, rrpr, rrlim, rfl, ?_, rfl,
      wwpr, rfl, ?_, ?_⟩⟩
    · rw [length_writeAt _ _ _ (by
        rw [encHeader_length bo p.length hp]
        have := hdrSizeOfLen_le8 p.length
        omega)]
      exact rrhdr
    · exact buildHeader_length bo p.length f.ww.header wwhdr
    · rw [length_writeAt _ _ _ (by omega)]
      exact bufcap

/-- Drive `ForwardOnce` until the source reports end-of-stream (the retry
loop of the forwarding tests): stops successfully at `(0, EOF)`, fails on any
other error. -/
def forwardAll (W : WriterM σ) : Nat → FwdSt → Script → σ → Option (FwdSt × Script × σ)
  | 0, _, _, _ => none
  | fuel + 1, f, src, w =>
    match forwardOnce W fuel f src w with
    | none => none
    | some (_, some .eof, f', src', w') => some (f', src', w')
    | some (_, some _, _, _, _) => none
    | some (_, none, f', src', w') => forwardAll W fuel f' src' w'

theorem forwardOnce_eof (fuel : Nat) (bo : ByteOrd) (limit cap : Nat)
    (f : FwdSt) (acc : List Nat)
    (hinv : FwdInv bo limit cap f) (hfuel : 3 ≤ fuel) :
    ∃ f', forwardOnce bufW fuel f [] acc = some (0, some .eof, f', [], acc) ∧
      FwdInv bo limit cap f' := by
  obtain ⟨st0, eofP, eofA, rrbo, rrpr, rrlim, rroff, rrhdr, wwbo, wwpr, wwoff, wwhdr,
    bufcap⟩ := hinv
  have hcr : ¬ (f.rr.rpr.preserveBoundary = true) := by rw [rrpr]; simp [Protocol.preserveBoundary]
  obtain ⟨fuel, rfl⟩ : ∃ g, fuel = g + 3 := ⟨fuel - 3, by omega⟩
  have hrd : readStream (fuel + 3) f.rr [] [] = some (0, some .eof, f.rr, [], []) := by
    rw [readStream]
    rw [rsHdr_eof0 (fuel + 2) f.rr [] [] rroff (readOnce_exhausted 1)]
  rw [forwardOnce]
  rw [if_neg (by simp [eofP])]
  rw [fwdStep0]
  rw [if_pos st0]
  rw [if_neg hcr]
  rw [fread]
  rw [if_neg hcr]
  rw [hrd]
  simp only
  exact ⟨{ f with rr := f.rr }, rfl,
    ⟨st0, eofP, eofA, rrbo, rrpr, rrlim, rroff, rrhdr, wwbo, wwpr, wwoff, wwhdr, bufcap⟩⟩

theorem forwardAll_msgs (msgs : List (List Nat)) (bo : ByteOrd) (limit cap : Nat)
    (fuel : Nat) (f : FwdSt) (acc : List Nat)
    (hinv : FwdInv bo limit cap f)
    (hfuel : msgs.length + 4 ≤ fuel)
    (hmsgs : ∀ p ∈ msgs,
      p.length ≤ 2 ^ 56 - 1 ∧ (limit = 0 ∨ p.length ≤ limit) ∧ p.length ≤ cap) :
    ∃ f', forwardAll bufW fuel f (msgs.map (fun p => (encWire bo p, none))) acc =
        some (f', [], acc ++ (msgs.map (fun p => encWire bo p)).flatten) ∧
      FwdInv bo limit cap f' := by
  induction msgs generalizing fuel f acc with
  | nil =>
    obtain ⟨fuel, rfl⟩ : ∃ g, fuel = g + 1 := ⟨fuel - 1, by omega⟩
    rw [forwardAll]
    obtain ⟨f', he, hinv'⟩ := forwardOnce_eof fuel bo limit cap f acc hinv (by omega)
    simp only [List.map_nil] at he ⊢
    rw [he]
    exact ⟨f', by simp, hinv'⟩
  | cons p ps ih =>
    obtain ⟨fuel, rfl⟩ : ∃ g, fuel = g + 1 := ⟨fuel - 1, by omega⟩
    rw [forwardAll]
    simp only [List.map_cons]
    obtain ⟨f1, he1, hinv1⟩ := forwardOnce_stream_msg fuel bo limit cap f p
      (ps.map (fun q => (encWire bo q, none))) acc hinv (by simp at hfuel; omega)
      (hmsgs p (by simp)).1 (hmsgs p (by simp)).2.1 (hmsgs p (by simp)).2.2
    rw [he1]
    simp only
    obtain ⟨f2, he2, hinv2⟩ := ih fuel f1 (acc ++ encWire bo p) hinv1
      (by simp at hfuel ⊢; omega) (fun q hq => hmsgs q (by simp [hq]))
    rw [he2]
    refine ⟨f2, ?_, hinv2⟩
    simp [List.append_assoc]

/-- Decode a stream of framed messages with `read_one` (destination scratch
of `cap` bytes per message) until clean end-of-stream, returning the decoded
payload sequence. -/
def readAll : Nat → Framer → Script → Nat → Option (List (List Nat))
  | 0, _, _, _ => none
  | fuel + 1, fr, s, cap =>
    match readStream (fuel + 1) fr s (List.replicate cap 0) with
    | none => none
    | some (_, some .eof, _, _, _) => some []
    | some (_, some _, _, _, _) => none
    | some (n, none, fr', s', dst') =>
      match readAll fuel fr' s' cap with
      | none => none
      | some ms => some (dst'.take n :: ms)

theorem readAll_msgs (msgs : List (List Nat)) (bo : ByteOrd) (limit cap : Nat)
    (fuel : Nat) (fr : Framer)
    (hfuel : msgs.length + 4 ≤ fuel)
    (hoff : fr.offset = 0) (hh8 : fr.header.length = 8)
    (hrbo : fr.rbo = bo) (hrlim : fr.readLimit = limit)
    (hmsgs : ∀ p ∈ msgs,
      p.length ≤ 2 ^ 56 - 1 ∧ (limit = 0 ∨ p.length ≤ limit) ∧ p.length ≤ cap) :
    readAll fuel fr (stepAfter ((msgs.map (fun p => encWire bo p)).flatten) none []) cap =
      some msgs := by
  induction msgs generalizing fuel fr with
  | nil =>
    obtain ⟨fuel, rfl⟩ : ∃ g, fuel = g + 1 := ⟨fuel - 1, by omega⟩
    rw [readAll]
    have hrd : readStream (fuel + 1) fr [] (List.replicate cap 0) =
        some (0, some .eof, fr, [], List.replicate cap 0) := by
      obtain ⟨fuel, rfl⟩ : ∃ g, fuel = g + 1 := ⟨fuel - 1, by omega⟩
      rw [readStream]
      rw [rsHdr_eof0 (fuel + 1) fr [] [] hoff (readOnce_exhausted 1)]
    simp only [List.map_nil, List.flatten_nil]
    rw [show stepAfter ([] : List Nat) none [] = [] from rfl]
    rw [hrd]
  | cons p ps ih =>
    obtain ⟨fuel, rfl⟩ : ∃ g, fuel = g + 1 := ⟨fuel - 1, by omega⟩
    rw [readAll]
    have hpw : encWire bo p ≠ [] := by
      rw [encWire]
      intro h
      have h1 := encHeader_length bo p.length (hmsgs p (by simp)).1
      have h2 := hdrSizeOfLen_le8 p.length
      have h3 : hdrSizeOfLen p.length = 1 + exLenOfLen p.length := rfl
      have := congrArg List.length h
      simp [h1] at this
      omega
    simp only [List.map_cons, List.flatten_cons]
    rw [show stepAfter (encWire bo p ++ (ps.map (fun q => encWire bo q)).flatten) none [] =
        (encWire bo p ++ (ps.map (fun q => encWire bo q)).flatten, none) :: [] from by
      rw [stepAfter, if_neg (by simp [hpw])]]
    have hrd := readStream_msg_ok (fuel + 1) fr p
      ((ps.map (fun q => encWire bo q)).flatten) (List.replicate cap 0) [] (by omega)
      hoff hh8 (hmsgs p (by simp)).1
      (by rw [hrlim]; exact (hmsgs p (by simp)).2.1)
      (by rw [List.length_replicate]; exact (hmsgs p (by simp)).2.2)
    rw [hrbo] at hrd
    rw [hrd]
    simp only
    have hih := ih fuel
      ({ fr with rbo := bo, offset := 0, length := 0,
                 header := writeAt fr.header 0 (encHeader bo p.length) })
      (by simp at hfuel ⊢; omega) (by simp) (by
        simp only []
        rw [length_writeAt _ _ _ (by
          rw [encHeader_length bo p.length (hmsgs p (by simp)).1]
          have := hdrSizeOfLen_le8 p.length
          omega)]
        exact hh8)
      (by simp only []) (by simp only []; exact hrlim)
      (fun q hq => hmsgs q (by simp [hq]))
    rw [hih]
    rw [take_writeAt_zero]

/-- C6 — Forwarder boundary preservation: for any sequence of framed messages
presented on the forwarder's stream-mode source (each within the internal
buffer capacity and the read limit), repeatedly calling `ForwardOnce` until
end-of-stream emits on the destination exactly the concatenation of the
canonical frames of the payloads — each message re-encoded as exactly one
frame — and decoding that wire with the stream read state machine returns
byte-for-byte the original sequence of payloads. -/
theorem c6_forwarder_boundaries (msgs : List (List Nat)) (bo : ByteOrd) (limit fuel : Nat)
    (hfuel : msgs.length + 4 ≤ fuel)
    (hmsgs : ∀ p ∈ msgs, p.length ≤ 2 ^ 56 - 1 ∧ (limit = 0 ∨ p.length ≤ limit) ∧
      p.length ≤ (if limit = 0 then 65536 else limit)) :
    ∃ fEnd,
      forwardAll bufW fuel (newForwarder bo limit .binaryStream .binaryStream)
          (msgs.map (fun p => (encWire bo p, none))) [] =
        some (fEnd, [], (msgs.map (fun p => encWire bo p)).flatten) ∧
      readAll fuel (mkFramer bo limit)
          (stepAfter ((msgs.map (fun p => encWire bo p)).flatten) none [])
          (if limit = 0 then 65536 else limit) = some msgs := by
  have hinv0 : FwdInv bo limit (if limit = 0 then 65536 else limit)
      (newForwarder bo limit .binaryStream .binaryStream) :=
    ⟨rfl, rfl, rfl, rfl, rfl, rfl, rfl, rfl, rfl, rfl, rfl, rfl, by
      simp [newForwarder, List.length_replicate]⟩
  obtain ⟨fEnd, he, _⟩ := forwardAll_msgs msgs bo limit _ fuel
    (newForwarder bo limit .binaryStream .binaryStream) [] hinv0 hfuel hmsgs
  refine ⟨fEnd, ?_, ?_⟩
  · rw [he]
    simp
  · exact readAll_msgs msgs bo limit _ fuel (mkFramer bo limit) hfuel rfl rfl rfl rfl hmsgs

/-- Witness for C6 at a concrete input: messages `[[7], [8, 9]]`, big-endian,
read limit 4 (wire `[1, 7] ++ [2, 8, 9]`). -/
theorem c6_forwarder_boundaries_witness :
    ∃ fEnd,
      forwardAll bufW 6 (newForwarder .big 4 .binaryStream .binaryStream)
          [([1, 7], none), ([2, 8, 9], none)] [] = some (fEnd, [], [1, 7, 2, 8, 9]) ∧
      readAll 6 (mkFramer .big 4) [([1, 7, 2, 8, 9], none)] 4 = some [[7], [8, 9]] :=
  c6_forwarder_boundaries [[7], [8, 9]] .big 4 6 (by decide) (by decide)
